import Mathlib

/-!
# Verification of the Finam-AI-Chat intent-routing and execution core

A shallow embedding, in Lean 4, of the core pipeline of the repository:
the token-bucket rate limiter (`src/app/core/rate_limit.py`), the TTL cache
(`src/app/core/cache.py`), the tool router with retry-with-backoff
(`src/app/orchestration/router.py`), the safety-policy evaluator
(`src/app/core/policy.py`), the idempotency guard and intent fingerprints
(`src/app/core/security.py`), the endpoint registry
(`src/app/registry/endpoints.py`), the deterministic slot extractor
(`src/app/orchestration/extractor.py`) and the orchestration state machine
(`src/app/orchestration/graph.py`).

Conventions of the embedding:
* Wall-clock time (`time.time()`) is threaded as an explicit rational-number
  parameter `now`; Python floats are modelled as `ℚ`.
* Python dictionaries used as finite maps are modelled as functions into
  `Option`; mutation becomes functional update.
* Network backends, the LLM and other external collaborators are passed in
  as explicit function parameters, and every call made to them is collected
  into an output list so that theorems can speak about which calls happen.
* Fallible code returns `Except`/`Option` instead of raising.
-/

namespace FinamCore

/-! ## Token bucket (`src/app/core/rate_limit.py`)

`TokenBucket` is a dataclass with `rate_per_sec : float` and `burst : int`,
plus mutable state `_tokens : float` (initially `float(burst)`) and
`_last_refill : float` (initially `time.time()`).  `consume` first refills
lazily from elapsed wall-clock time and then either takes the tokens or
computes a wait time. -/

structure TokenBucket where
  rate_per_sec : ℚ
  burst : ℤ
  tokens : ℚ
  last_refill : ℚ
  deriving Repr, DecidableEq

/-- `TokenBucket.__post_init__`: `_tokens = float(burst)`, `_last_refill = time.time()`. -/
def TokenBucket.init (rate : ℚ) (burst : ℤ) (now : ℚ) : TokenBucket :=
  { rate_per_sec := rate, burst := burst, tokens := (burst : ℚ), last_refill := now }

/-- `TokenBucket._refill`: if elapsed time is positive, add `elapsed * rate`
tokens, capped at `burst`, and advance `_last_refill`. -/
def TokenBucket.refill (b : TokenBucket) (now : ℚ) : TokenBucket :=
  if now - b.last_refill ≤ 0 then b
  else { b with tokens := min (b.burst : ℚ) (b.tokens + (now - b.last_refill) * b.rate_per_sec),
                last_refill := now }

/-- `TokenBucket.consume`: refill, then either take `amount` tokens (wait 0),
or compute the wait time `needed / rate` and clamp the balance at 0.
Returns the wait time together with the updated bucket. -/
def TokenBucket.consume (b : TokenBucket) (amount : ℚ) (now : ℚ) : ℚ × TokenBucket :=
  let r := b.refill now
  if amount ≤ r.tokens then
    (0, { r with tokens := r.tokens - amount })
  else
    let needed := amount - r.tokens
    let wait_sec := if 0 < r.rate_per_sec then needed / r.rate_per_sec else 0
    (max 0 wait_sec, { r with tokens := max 0 (r.tokens - amount) })

/-- The documented invariant `0 ≤ currentTokens ≤ burstCapacity`. -/
def TokenBucket.Inv (b : TokenBucket) : Prop :=
  0 ≤ b.tokens ∧ b.tokens ≤ (b.burst : ℚ)

instance (b : TokenBucket) : Decidable b.Inv := by
  unfold TokenBucket.Inv; infer_instance

/-- Run a sequence of `consume` calls; each list element is the amount
requested and the wall-clock value observed inside that call. -/
def TokenBucket.consumeSeq (b : TokenBucket) : List (ℚ × ℚ) → TokenBucket
  | [] => b
  | (amount, now) :: rest => ((b.consume amount now).2).consumeSeq rest

lemma TokenBucket.refill_burst (b : TokenBucket) (now : ℚ) :
    (b.refill now).burst = b.burst := by
  unfold TokenBucket.refill; split <;> rfl

lemma TokenBucket.refill_le_burst (b : TokenBucket) (now : ℚ)
    (h : b.tokens ≤ (b.burst : ℚ)) :
    (b.refill now).tokens ≤ ((b.refill now).burst : ℚ) := by
  unfold TokenBucket.refill
  split
  · exact h
  · exact min_le_left _ _

/-- A single `consume` preserves the invariant, for any clock value and any
nonnegative amount (the router always consumes `1.0`). -/
lemma TokenBucket.consume_inv (b : TokenBucket) (amount now : ℚ)
    (hb : b.Inv) (ha : 0 ≤ amount) : ((b.consume amount now).2).Inv := by
  have hub : (b.refill now).tokens ≤ ((b.refill now).burst : ℚ) :=
    b.refill_le_burst now hb.2
  have hburst0 : (0 : ℚ) ≤ ((b.refill now).burst : ℚ) := by
    rw [b.refill_burst now]; exact le_trans hb.1 hb.2
  simp only [TokenBucket.consume]
  split
  · rename_i hc
    exact ⟨by show (0:ℚ) ≤ (b.refill now).tokens - amount; linarith,
           by show (b.refill now).tokens - amount ≤ ((b.refill now).burst : ℚ); linarith⟩
  · exact ⟨by show (0:ℚ) ≤ max 0 ((b.refill now).tokens - amount); exact le_max_left _ _,
           by show max 0 ((b.refill now).tokens - amount) ≤ ((b.refill now).burst : ℚ)
              exact max_le hburst0 (by linarith)⟩

/-- **C8**: for every sequence of `consume` calls (arbitrary clock values,
nonnegative amounts — the router always consumes `1.0`) starting from any
bucket satisfying the invariant (in particular a freshly initialised bucket,
see `TokenBucket.init_inv`), the invariant `0 ≤ currentTokens ≤ burstCapacity`
holds after the sequence; since this is quantified over every call list, it
holds before and after each individual call of a longer run.  The second
conjunct restates the instantaneous-availability bound: tokens never exceed
`burstCapacity`.  Refill is lazy: it happens only inside `consume`
(`TokenBucket.consume` is the only operation), computed from the supplied
clock value and capped at `burst`. -/
theorem c8_token_bucket_invariant (b : TokenBucket) (calls : List (ℚ × ℚ))
    (hb : b.Inv) (hamounts : ∀ p ∈ calls, 0 ≤ p.1) :
    (b.consumeSeq calls).Inv ∧ (b.consumeSeq calls).tokens ≤ ((b.consumeSeq calls).burst : ℚ) := by
  suffices h : (b.consumeSeq calls).Inv from ⟨h, h.2⟩
  induction calls generalizing b with
  | nil => exact hb
  | cons p rest ih =>
      obtain ⟨amount, now⟩ := p
      have h1 : 0 ≤ amount := hamounts _ (List.mem_cons_self _ _)
      have h2 : ∀ q ∈ rest, 0 ≤ q.1 := fun q hq => hamounts q (List.mem_cons_of_mem _ hq)
      exact ih _ (b.consume_inv amount now hb h1) h2

/-- A freshly initialised bucket (as built by the router: rate 5, burst 10)
satisfies the invariant whenever `0 ≤ burst`. -/
lemma TokenBucket.init_inv (rate : ℚ) (burst : ℤ) (now : ℚ) (h : 0 ≤ burst) :
    (TokenBucket.init rate burst now).Inv :=
  ⟨by show (0:ℚ) ≤ (burst : ℚ); exact_mod_cast h, le_refl _⟩

/-- Witness for `c8_token_bucket_invariant` at the router's concrete bucket
(rate 5/s, burst 10) and a two-call trace. -/
theorem c8_token_bucket_invariant_witness :
    (TokenBucket.init 5 10 0).Inv ∧
      (∀ p ∈ [((1:ℚ), (1:ℚ)/10), ((1:ℚ), (1:ℚ)/5)], 0 ≤ p.1) ∧
      (((TokenBucket.init 5 10 0).consumeSeq [(1, 1/10), (1, 1/5)]).Inv ∧
        ((TokenBucket.init 5 10 0).consumeSeq [(1, 1/10), (1, 1/5)]).tokens ≤
          (((TokenBucket.init 5 10 0).consumeSeq [(1, 1/10), (1, 1/5)]).burst : ℚ)) :=
  ⟨by decide, by decide,
    c8_token_bucket_invariant (TokenBucket.init 5 10 0) [(1, 1/10), (1, 1/5)]
      (by decide) (by decide)⟩

/-! ## TTL cache (`src/app/core/cache.py`)

`SimpleTTLCache` stores `CacheEntry(value, expires_at)` in a dict keyed by
`_key(method, path, params)`.  The dict is modelled as a function
`String → Option (CacheEntry α)`; `time.time()` is the parameter `now`. -/

structure CacheEntry (α : Type) where
  value : α
  expires_at : ℚ

/-- The cache's backing dict. -/
def CacheStore (α : Type) := String → Option (CacheEntry α)

def CacheStore.empty (α : Type) : CacheStore α := fun _ => none

/-- Comparator mirroring Python's `sorted(params.items())`: lexicographic on
the key, then the value. -/
def pairLe (a b : String × String) : Bool :=
  decide (a.1 < b.1) || (a.1 == b.1 && decide (a.2 ≤ b.2))

/-- `SimpleTTLCache._key`: `"method:path"`, plus `"?"` and the sorted
`k=v` pairs joined by `","` when `params` is truthy (a non-empty dict). -/
def cacheKey (method path : String) (params : Option (List (String × String))) : String :=
  let base := method ++ ":" ++ path
  match params with
  | none => base
  | some l =>
      if l.isEmpty then base
      else base ++ "?" ++ String.intercalate "," ((l.mergeSort pairLe).map fun kv => kv.1 ++ "=" ++ kv.2)

/-- `SimpleTTLCache.get`: hit iff present and `expires_at > now`; an expired
entry is popped.  Returns the hit value (if any) and the updated store. -/
def cacheGet {α : Type} (c : CacheStore α) (method path : String)
    (params : Option (List (String × String))) (now : ℚ) : Option α × CacheStore α :=
  let k := cacheKey method path params
  match c k with
  | some entry =>
      if now < entry.expires_at then (some entry.value, c)
      else (none, fun k' => if k' = k then none else c k')
  | none => (none, c)

/-- `SimpleTTLCache.set`: store the value with `expires_at = now + ttl`. -/
def cacheSet {α : Type} (c : CacheStore α) (method path : String)
    (params : Option (List (String × String))) (value : α) (ttl : ℚ) (now : ℚ) : CacheStore α :=
  fun k' => if k' = cacheKey method path params then some ⟨value, now + ttl⟩ else c k'

/-! ## Tool router (`src/app/orchestration/router.py`)

`ToolRouter.execute` consumes one rate-limiter token, serves GET requests
from the TTL cache, and otherwise dispatches to the backend
(`_execute_backend`).  The backend is abstracted as the response value it
would produce for this call; the returned flag records whether the backend
was actually invoked. -/

structure ToolRequest where
  method : String
  path : String
  deriving Repr, DecidableEq

structure RouterState (α : Type) where
  cache : CacheStore α
  bucket : TokenBucket

/-- Uppercase of one character (Python `str.upper`) for the alphabets this
code base manipulates: ASCII `a-z` and Russian `а-я`/`ё`. -/
def charUpper (c : Char) : Char :=
  if 'a' ≤ c ∧ c ≤ 'z' then Char.ofNat (c.toNat - 32)
  else if 0x430 ≤ c.toNat ∧ c.toNat ≤ 0x44F then Char.ofNat (c.toNat - 32)
  else if c.toNat = 0x451 then Char.ofNat 0x401
  else c

/-- Python `s.upper()` (ASCII and Russian letters). -/
def strToUpper (s : String) : String := ⟨s.data.map charUpper⟩

/-- Substring test (Python's `needle in hay`). -/
def listContains (needle hay : List Char) : Bool :=
  match hay with
  | [] => needle.isEmpty
  | _ :: t => needle.isPrefixOf hay || listContains needle t

def strContains (hay needle : String) : Bool := listContains needle.toList hay.toList

/-- `ttl = 30 if "/orderbook" in request.path or "/quotes" in request.path else 300`. -/
def cacheTtlFor (path : String) : ℚ :=
  if strContains path "/orderbook" || strContains path "/quotes" then 30 else 300

/-- `ToolRouter.execute` for a single call: `(response, new state, backend invoked?)`. -/
def routerExecute {α : Type} (st : RouterState α) (req : ToolRequest)
    (params : Option (List (String × String))) (backendResp : α) (now : ℚ) :
    α × RouterState α × Bool :=
  let bucket' := (st.bucket.consume 1 now).2
  if strToUpper req.method == "GET" then
    match cacheGet st.cache req.method req.path params now with
    | (some v, cache') => (v, ⟨cache', bucket'⟩, false)
    | (none, cache') =>
        let ttl := cacheTtlFor req.path
        (backendResp, ⟨cacheSet cache' req.method req.path params backendResp ttl now, bucket'⟩, true)
  else
    (backendResp, ⟨st.cache, bucket'⟩, true)

lemma cacheGet_cacheSet_hit {α : Type} (c : CacheStore α) (method path : String)
    (params : Option (List (String × String))) (v : α) (ttl now t : ℚ)
    (h : t < now + ttl) :
    cacheGet (cacheSet c method path params v ttl now) method path params t =
      (some v, cacheSet c method path params v ttl now) := by
  simp only [cacheGet, cacheSet, if_pos rfl]
  simp [h]

/-- **C7**: (i) two consecutive `ToolRouter.execute` calls with identical GET
method, path and params, the second within the TTL window of the first,
invoke the backend at most once; (ii) non-GET methods never touch the cache
(and always invoke the backend); (iii) the entry stored on a miss expires
`30` seconds after the call when the path contains `/orderbook` or `/quotes`
and `300` seconds after it otherwise. -/
theorem c7_router_cache (α : Type) (st : RouterState α) (req : ToolRequest)
    (params : Option (List (String × String))) (r1 r2 : α) (t1 t2 : ℚ)
    (hget : strToUpper req.method = "GET")
    (h12 : t1 ≤ t2) (hwin : t2 < t1 + cacheTtlFor req.path) :
    (((routerExecute st req params r1 t1).2.2).toNat +
        ((routerExecute ((routerExecute st req params r1 t1).2.1) req params r2 t2).2.2).toNat ≤ 1)
    ∧ (∀ (st' : RouterState α) (req' : ToolRequest) params' (r' : α) (now' : ℚ),
        strToUpper req'.method ≠ "GET" →
          (routerExecute st' req' params' r' now').2.1.cache = st'.cache ∧
          (routerExecute st' req' params' r' now').2.2 = true)
    ∧ ((routerExecute st req params r1 t1).2.2 = true →
        (routerExecute st req params r1 t1).2.1.cache (cacheKey req.method req.path params) =
          some ⟨r1, t1 + (if strContains req.path "/orderbook" || strContains req.path "/quotes"
                          then 30 else 300)⟩) := by
  have hbeq : (strToUpper req.method == "GET") = true := by simp [hget]
  refine ⟨?_, ?_, ?_⟩
  · cases hc1 : cacheGet st.cache req.method req.path params t1 with
    | mk o1 c1 =>
      cases o1 with
      | some v =>
          simp only [routerExecute, hbeq, if_true, hc1]
          cases hc2 : cacheGet c1 req.method req.path params t2 with
          | mk o2 c2 => cases o2 <;> simp [hc2]
      | none =>
          simp only [routerExecute, hbeq, if_true, hc1]
          rw [cacheGet_cacheSet_hit c1 req.method req.path params r1 (cacheTtlFor req.path) t1 t2 hwin]
          simp
  · intro st' req' params' r' now' hne
    have hbeq' : (strToUpper req'.method == "GET") = false := by
      simp [hne]
    simp [routerExecute, hbeq']
  · cases hc1 : cacheGet st.cache req.method req.path params t1 with
    | mk o1 c1 =>
      cases o1 with
      | some v => simp [routerExecute, hbeq, hc1]
      | none =>
          intro _
          simp only [routerExecute, hbeq, if_true, hc1]
          simp [cacheSet, cacheTtlFor]

/-- Witness for `c7_router_cache`: a fresh router state, a GET on an
orderbook path (TTL 30) queried at times 0 and 1. -/
theorem c7_router_cache_witness :
    strToUpper (ToolRequest.mk "GET" "/v1/instruments/SBER@MISX/orderbook").method = "GET" ∧
      ((0:ℚ) ≤ 1 ∧ (1:ℚ) < 0 + cacheTtlFor "/v1/instruments/SBER@MISX/orderbook") ∧
      (((routerExecute (α := ℕ) ⟨CacheStore.empty ℕ, TokenBucket.init 5 10 0⟩
            ⟨"GET", "/v1/instruments/SBER@MISX/orderbook"⟩ none 7 0).2.2).toNat +
        ((routerExecute ((routerExecute (α := ℕ) ⟨CacheStore.empty ℕ, TokenBucket.init 5 10 0⟩
            ⟨"GET", "/v1/instruments/SBER@MISX/orderbook"⟩ none 7 0).2.1)
            ⟨"GET", "/v1/instruments/SBER@MISX/orderbook"⟩ none 8 1).2.2).toNat ≤ 1) :=
  ⟨by decide,
    ⟨by norm_num,
     by rw [show cacheTtlFor "/v1/instruments/SBER@MISX/orderbook" = 30 from rfl]; norm_num⟩,
    (c7_router_cache ℕ ⟨CacheStore.empty ℕ, TokenBucket.init 5 10 0⟩
      ⟨"GET", "/v1/instruments/SBER@MISX/orderbook"⟩ none 7 8 0 1
      (by decide) (by norm_num)
      (by rw [show cacheTtlFor "/v1/instruments/SBER@MISX/orderbook" = 30 from rfl]; norm_num)).1⟩

/-! ## Retry with backoff (`ToolRouter._with_backoff`)

The HTTP backend (`FinamAPIClient.execute_request`) normalises failures to a
dict `{'error': ..., 'status_code': ...}` instead of raising.  `_with_backoff`
inspects that uniform shape.  A response is modelled by the predicates the
code tests: whether it is a dict, whether it has an `"error"` key, its
`status_code` value (when present), plus an opaque payload identifier. -/

structure BackendResp where
  isDict : Bool
  hasErrorKey : Bool
  statusCode : Option ℤ
  payload : ℕ
  deriving Repr, DecidableEq

/-- The `{}` returned when `last_resp` is `None` (unreachable: the delay list
is non-empty). -/
def emptyDictResp : BackendResp := ⟨true, false, none, 0⟩

/-- `isinstance(resp, dict) and "error" in resp and resp.get("status_code") in
(429, 500, 502, 503, 504)`. -/
def retryableResp (r : BackendResp) : Bool :=
  r.isDict && r.hasErrorKey &&
    (r.statusCode == some 429 || r.statusCode == some 500 || r.statusCode == some 502 ||
      r.statusCode == some 503 || r.statusCode == some 504)

def backoffDelays : List ℚ := [1/10, 3/10, 7/10, 3/2]

/-- The loop of `_with_backoff`: `client` is attempt number ↦ the response
`self.client.execute_request` produces for that attempt; the result carries
the response returned and the number of attempts made. -/
def withBackoffGo (client : ℕ → BackendResp) :
    List ℚ → ℕ → Option BackendResp → BackendResp × ℕ
  | [], n, last => (last.getD emptyDictResp, n)
  | _d :: ds, n, _last =>
      let resp := client n
      if !(retryableResp resp) then (resp, n + 1)
      else withBackoffGo client ds (n + 1) (some resp)

def withBackoff (client : ℕ → BackendResp) : BackendResp × ℕ :=
  withBackoffGo client backoffDelays 0 none

/-- **C6**: `_with_backoff` makes at most 4 attempts; it returns the first
response that is not a retryable uniform-shape error (status 429/500/502/
503/504) immediately, after exactly `i + 1` attempts when the first
non-retryable response is attempt `i`; and when all four attempts are
retryable errors it returns the last error response as a value (no
exception is modelled: the embedding is total). -/
theorem c6_backoff_bounds (client : ℕ → BackendResp) :
    ((withBackoff client).2 ≤ 4)
    ∧ (∀ i : ℕ, i < 4 → (∀ j : ℕ, j < i → retryableResp (client j) = true) →
        retryableResp (client i) = false → withBackoff client = (client i, i + 1))
    ∧ ((∀ j : ℕ, j < 4 → retryableResp (client j) = true) →
        withBackoff client = (client 3, 4)) := by
  by_cases h0 : retryableResp (client 0) <;>
  by_cases h1 : retryableResp (client 1) <;>
  by_cases h2 : retryableResp (client 2) <;>
  by_cases h3 : retryableResp (client 3) <;>
  refine ⟨?_, fun i hi hprev hcur => ?_, fun hall => ?_⟩ <;>
  first
    | (simp [withBackoff, withBackoffGo, backoffDelays, h0, h1, h2, h3]; done)
    | (interval_cases i <;> simp_all [withBackoff, withBackoffGo, backoffDelays])
    | (have e0 := fun h => hall 0 h
       have e1 := fun h => hall 1 h
       have e2 := fun h => hall 2 h
       have e3 := fun h => hall 3 h
       simp_all [withBackoff, withBackoffGo, backoffDelays])

/-- Witness for `c6_backoff_bounds`: a client whose first response is a
success, returned after exactly one attempt. -/
theorem c6_backoff_bounds_witness :
    retryableResp ⟨true, false, none, 7⟩ = false ∧
      withBackoff (fun _ => ⟨true, false, none, 7⟩) = (⟨true, false, none, 7⟩, 1) :=
  ⟨by decide,
    (c6_backoff_bounds (fun _ => ⟨true, false, none, 7⟩)).2.1 0 (by norm_num)
      (fun j hj => absurd hj (Nat.not_lt_zero j)) (by decide)⟩

/-! ## Safety policy evaluator (`src/app/core/policy.py`)

`evaluate_policy(method, path, request_kwargs, policy)` is a pure function.
Of `request_kwargs` it only ever reads `request_kwargs["json"]["instrument"]`
and `request_kwargs["json"]["quantity"]`, so the json body is modelled by
those two optional fields; `none` stands for "no kwargs" or "no json dict".
-/

structure SafetyPolicy where
  allowed_methods : List String
  confirm_methods : List String
  allowed_markets : List String
  max_order_quantity : ℤ
  deriving Repr, DecidableEq

/-- The defaults of `load_policy()` when no policy document is configured. -/
def defaultPolicy : SafetyPolicy :=
  ⟨["GET", "POST", "DELETE"], ["POST", "DELETE"],
   ["MISX", "FORTS", "RTSX", "XNGS", "SPBEX"], 10000⟩

structure RequestJson where
  instrument : Option String
  quantity : Option ℤ
  deriving Repr, DecidableEq

/-- `re.search(r"instruments/([^/]+)/", path)`: the leftmost position where
the literal `instruments/` is followed by a nonempty run of non-`/`
characters and then a `/`; returns the run.  (The greedy `[^/]+` cannot
backtrack usefully: a shorter run would have to be followed by `/`, which
contradicts maximality, so leftmost-maximal-then-`/` is exact.) -/
def findInstrumentSeg : List Char → Option (List Char)
  | [] => none
  | c :: rest =>
      let cs := c :: rest
      if ("instruments/".toList).isPrefixOf cs then
        let tail := cs.drop 12
        let seg := tail.takeWhile (fun ch => ch ≠ '/')
        if seg.length ≠ 0 ∧ seg.length < tail.length then some seg
        else findInstrumentSeg rest
      else findInstrumentSeg rest

/-- Python `sym.split("@", 1)[1]`: everything after the first `@`. -/
def afterFirstAt (seg : List Char) : List Char :=
  (seg.dropWhile (fun ch => ch ≠ '@')).drop 1

/-- The market extracted from the path's symbol segment (`TICKER@MARKET`),
when the segment contains `@`. -/
def marketFromPath (path : String) : Option String :=
  match findInstrumentSeg path.toList with
  | none => none
  | some seg =>
      if seg.contains '@' then some (String.mk (afterFirstAt seg)) else none

/-- The market taken from `request_kwargs["json"]["instrument"]`. -/
def marketFromJson (reqJson : Option RequestJson) : Option String :=
  match reqJson with
  | some rj =>
      match rj.instrument with
      | some ins =>
          if ins.toList.contains '@' then some (String.mk (afterFirstAt ins.toList)) else none
      | none => none
  | none => none

/-- Python truthiness of the optional market string (`""` is falsy). -/
def truthyStr : Option String → Option String
  | some "" => none
  | x => x

/-- `evaluate_policy`.  Returns `(allowed, requires_confirm, reasons)`.
The market variable is first taken from the path and, when that is falsy,
from the json instrument; the final check `if market and market not in
allowed_markets` only fires for a truthy (non-empty) market, which is what
`truthyStr _ <|> truthyStr _` computes. -/
def evaluatePolicy (method path : String) (reqJson : Option RequestJson)
    (policy : SafetyPolicy) : Bool × Bool × List String :=
  let m := strToUpper method
  if m ∉ policy.allowed_methods then (false, false, ["Method not allowed"])
  else
    let requires_confirm : Bool := decide (m ∈ policy.confirm_methods)
    let market : Option String := truthyStr (marketFromPath path) <|> truthyStr (marketFromJson reqJson)
    let reasons1 : List String :=
      match market with
      | some mk => if mk ∉ policy.allowed_markets then ["Market " ++ mk ++ " not in allowlist"] else []
      | none => []
    let reasons2 : List String :=
      if m = "POST" then
        match reqJson with
        | some rj =>
            match rj.quantity with
            | some q => if policy.max_order_quantity < q then ["Order quantity exceeds max policy limit"] else []
            | none => []
        | none => []
      else []
    let reasons := reasons1 ++ reasons2
    (reasons.isEmpty, requires_confirm, reasons)

/-- **C3, counterexample.**  The claim asserts `requiresConfirm` is true
exactly when the method is in `confirmMethods`, for *every* policy and
regardless of the other checks.  But `evaluate_policy` returns early with
`requires_confirm = False` when the method is not in `allowedMethods`: with
`allowed_methods = ["GET"]` and `confirm_methods = ["POST"]`, a `POST` is in
`confirmMethods` yet `requiresConfirm` comes back false. -/
theorem c3_policy_confirm_counterexample :
    (evaluatePolicy "POST" "/v1/accounts/A1/orders" none
        (SafetyPolicy.mk ["GET"] ["POST"] [] 0)).2.1 = false ∧
      "POST" ∈ (SafetyPolicy.mk ["GET"] ["POST"] [] 0).confirm_methods := by
  decide

/-- **C3, amended**: for every method, path, body and policy, the evaluator
satisfies `allowed = reasons.isEmpty`; and `requiresConfirm` is true exactly
when the (uppercased) method is in `policy.confirmMethods` *provided the
method passes the allowed-methods check* — the market and quantity checks
never affect it; when the method is not allowed the evaluator returns early
with `requiresConfirm = false`. -/
theorem c3_policy_monotonicity (method path : String) (reqJson : Option RequestJson)
    (policy : SafetyPolicy) :
    ((evaluatePolicy method path reqJson policy).1 =
        (evaluatePolicy method path reqJson policy).2.2.isEmpty)
    ∧ (strToUpper method ∈ policy.allowed_methods →
        ((evaluatePolicy method path reqJson policy).2.1 = true ↔
          strToUpper method ∈ policy.confirm_methods))
    ∧ (strToUpper method ∉ policy.allowed_methods →
        (evaluatePolicy method path reqJson policy).2.1 = false) := by
  by_cases hm : strToUpper method ∈ policy.allowed_methods <;>
    simp [evaluatePolicy, hm]

/-- Witness for `c3_policy_monotonicity` at a concrete `DELETE` under the
default policy. -/
theorem c3_policy_monotonicity_witness :
    strToUpper "DELETE" ∈ defaultPolicy.allowed_methods ∧
      ((evaluatePolicy "DELETE" "/v1/accounts/A1/orders/ORD1" none defaultPolicy).2.1 = true ↔
        strToUpper "DELETE" ∈ defaultPolicy.confirm_methods) :=
  ⟨by decide,
    (c3_policy_monotonicity "DELETE" "/v1/accounts/A1/orders/ORD1" none defaultPolicy).2.1
      (by decide)⟩

/-! ## Endpoint registry (`src/app/registry/endpoints.py`)

The registry is a list of endpoint definitions (`schema`, `method`, `path`,
`params`, `json_from`) loaded from declarative YAML; the YAML also carries
`synonyms`/`keywords` lists consumed by the extractor, so they are carried
on the same record.  Structured requests (pydantic models with string
fields) are modelled as a field-lookup function `String → Option String`. -/

structure EndpointDef where
  schema : String
  method : String
  path : String
  params : List (String × String) := []
  json_from : Option String := none
  synonyms : List String := []
  keywords : List String := []
  deriving Repr, DecidableEq

/-- Python `s.find("}", i)` as used by `_extract_placeholders`: split a char
list at the first `}` (contents before it, remainder after it). -/
def splitAtCloseBrace : List Char → Option (List Char × List Char)
  | [] => none
  | c :: rest =>
      if c = '}' then some ([], rest)
      else match splitAtCloseBrace rest with
        | some (seg, rest') => some (c :: seg, rest')
        | none => none

lemma splitAtCloseBrace_length :
    ∀ l s r, splitAtCloseBrace l = some (s, r) → r.length < l.length := by
  intro l
  induction l with
  | nil => intro s r h; simp [splitAtCloseBrace] at h
  | cons c rest ih =>
      intro s r h
      simp only [splitAtCloseBrace] at h
      split at h
      · simp only [Option.some.injEq, Prod.mk.injEq] at h
        have hr : rest = r := h.2
        subst hr
        simp only [List.length_cons]
        omega
      · cases hsp : splitAtCloseBrace rest with
        | none => rw [hsp] at h; simp at h
        | some p =>
            rw [hsp] at h
            cases p with
            | mk s1 r1 =>
                simp only [Option.some.injEq, Prod.mk.injEq] at h
                have hlt := ih s1 r1 hsp
                have hr : r1 = r := h.2
                subst hr
                simp only [List.length_cons]
                omega

/-- `_extract_placeholders`, fuelled: the scan consumes at least one
character per step, so any fuel `≥` the list length gives the function's
value; the explicit fuel makes the recursion structural (and hence
kernel-computable).  Scan left to right; each `{` is paired with the next
`}` and the text between them is collected; an unmatched `{` stops the
scan. -/
def extractPlaceholdersF : ℕ → List Char → List (List Char)
  | _, [] => []
  | 0, _ => []
  | fuel + 1, c :: rest =>
      if c = '{' then
        match splitAtCloseBrace rest with
        | some (seg, rest') => seg :: extractPlaceholdersF fuel rest'
        | none => []
      else extractPlaceholdersF fuel rest

lemma extractPlaceholdersF_step (pat : Unit) (fuel : ℕ) (c : Char) (rest : List Char) :
    extractPlaceholdersF (fuel + 1) (c :: rest) =
      if c = '{' then
        match splitAtCloseBrace rest with
        | some (seg, rest') => seg :: extractPlaceholdersF fuel rest'
        | none => []
      else extractPlaceholdersF fuel rest := rfl

/-- `_extract_placeholders`. -/
def extractPlaceholdersL (l : List Char) : List (List Char) :=
  extractPlaceholdersF l.length l

lemma extractPlaceholdersF_congr :
    ∀ (k fuel fuel' : ℕ) (cs : List Char), cs.length ≤ k → cs.length ≤ fuel →
      cs.length ≤ fuel' → extractPlaceholdersF fuel cs = extractPlaceholdersF fuel' cs := by
  intro k
  induction k with
  | zero =>
      intro fuel fuel' cs hk _ _
      have : cs = [] := List.eq_nil_of_length_eq_zero (Nat.le_zero.mp hk)
      subst this
      cases fuel <;> cases fuel' <;> rfl
  | succ k ih =>
      intro fuel fuel' cs hk hf hf'
      cases cs with
      | nil => cases fuel <;> cases fuel' <;> rfl
      | cons c rest =>
          cases fuel with
          | zero => simp at hf
          | succ f =>
              cases fuel' with
              | zero => simp at hf'
              | succ f' =>
                  rw [extractPlaceholdersF_step () f, extractPlaceholdersF_step () f']
                  simp only [List.length_cons] at hk hf hf'
                  by_cases hc : c = '{'
                  · rw [if_pos hc, if_pos hc]
                    cases hsp : splitAtCloseBrace rest with
                    | none => rfl
                    | some p =>
                        cases p with
                        | mk seg rest' =>
                            have hlen := splitAtCloseBrace_length rest seg rest' hsp
                            show seg :: extractPlaceholdersF f rest' =
                              seg :: extractPlaceholdersF f' rest'
                            rw [ih f f' rest' (by omega) (by omega) (by omega)]
                  · rw [if_neg hc, if_neg hc]
                    exact ih f f' rest (by omega) (by omega) (by omega)

lemma extract_nil : extractPlaceholdersL [] = [] := rfl

lemma extract_brace_some (rest seg rest' : List Char)
    (h : splitAtCloseBrace rest = some (seg, rest')) :
    extractPlaceholdersL ('{' :: rest) = seg :: extractPlaceholdersL rest' := by
  have hlen := splitAtCloseBrace_length rest seg rest' h
  show extractPlaceholdersF (rest.length + 1) ('{' :: rest) = _
  rw [extractPlaceholdersF_step () rest.length, if_pos rfl, h]
  show seg :: extractPlaceholdersF rest.length rest' = seg :: extractPlaceholdersL rest'
  rw [extractPlaceholdersF_congr rest.length rest.length rest'.length rest'
    (by omega) (by omega) (le_refl _)]
  rfl

/-- `_parse_placeholder`: `"field?"` is optional, `"field"` is required. -/
def parsePlaceholder (seg : List Char) : List Char × Bool :=
  if seg.getLast? = some '?' then (seg.dropLast, true) else (seg, false)

/-- Python `str.replace` (leftmost, non-overlapping, all occurrences),
fuelled: one character of fuel per step suffices, the wrapper passes the
list length.  The callers below always pass a nonempty brace-wrapped
pattern; for an empty pattern this returns the string unchanged. -/
def replaceAllF (pat repl : List Char) : ℕ → List Char → List Char
  | _, [] => []
  | 0, cs => cs
  | fuel + 1, c :: cs =>
      if pat ≠ [] ∧ pat.isPrefixOf (c :: cs) then
        repl ++ replaceAllF pat repl fuel ((c :: cs).drop pat.length)
      else c :: replaceAllF pat repl fuel cs

/-- Python `str.replace`. -/
def replaceAllL (pat repl : List Char) (cs : List Char) : List Char :=
  replaceAllF pat repl cs.length cs

lemma replaceAllF_congr (pat repl : List Char) :
    ∀ (k fuel fuel' : ℕ) (cs : List Char), cs.length ≤ k → cs.length ≤ fuel →
      cs.length ≤ fuel' → replaceAllF pat repl fuel cs = replaceAllF pat repl fuel' cs := by
  intro k
  induction k with
  | zero =>
      intro fuel fuel' cs hk _ _
      have : cs = [] := List.eq_nil_of_length_eq_zero (Nat.le_zero.mp hk)
      subst this
      cases fuel <;> cases fuel' <;> rfl
  | succ k ih =>
      intro fuel fuel' cs hk hf hf'
      cases cs with
      | nil => cases fuel <;> cases fuel' <;> rfl
      | cons c rest =>
          cases fuel with
          | zero => simp at hf
          | succ f =>
              cases fuel' with
              | zero => simp at hf'
              | succ f' =>
                  rw [replaceAllF, replaceAllF]
                  simp only [List.length_cons] at hk hf hf'
                  by_cases hp : pat ≠ [] ∧ pat.isPrefixOf (c :: rest)
                  · rw [if_pos hp, if_pos hp]
                    have hpl : 0 < pat.length := List.length_pos.mpr hp.1
                    have hdl : ((c :: rest).drop pat.length).length ≤ rest.length := by
                      simp only [List.length_drop, List.length_cons]
                      omega
                    rw [ih f f' _ (by omega) (by omega) (by omega)]
                  · rw [if_neg hp, if_neg hp]
                    rw [ih f f' rest (by omega) (by omega) (by omega)]

lemma replaceAllL_nil (pat repl : List Char) : replaceAllL pat repl [] = [] := rfl

lemma replaceAllL_cons_match (pat repl : List Char) (c : Char) (cs : List Char)
    (h : pat ≠ [] ∧ pat.isPrefixOf (c :: cs)) :
    replaceAllL pat repl (c :: cs) =
      repl ++ replaceAllL pat repl ((c :: cs).drop pat.length) := by
  have hpl : 0 < pat.length := List.length_pos.mpr h.1
  show replaceAllF pat repl (cs.length + 1) (c :: cs) = _
  rw [replaceAllF, if_pos h]
  rw [replaceAllF_congr pat repl cs.length cs.length ((c :: cs).drop pat.length).length _
    (by simp only [List.length_drop, List.length_cons]; omega)
    (by simp only [List.length_drop, List.length_cons]; omega) (le_refl _)]
  rfl

lemma replaceAllL_cons_nomatch (pat repl : List Char) (c : Char) (cs : List Char)
    (h : ¬(pat ≠ [] ∧ pat.isPrefixOf (c :: cs))) :
    replaceAllL pat repl (c :: cs) = c :: replaceAllL pat repl cs := by
  show replaceAllF pat repl (cs.length + 1) (c :: cs) = _
  rw [replaceAllF, if_neg h]
  rfl

/-- A structured request, as `_substitute` sees it: `getattr(obj, field, None)`. -/
def Slots := String → Option String

/-- The loop of `_substitute`: for each placeholder (in order of appearance)
look the field up, raising on `None`, and replace every occurrence of
`{seg}` with the value. -/
def substituteGo (slots : Slots) : List (List Char) → List Char → Except String (List Char)
  | [], out => .ok out
  | seg :: rest, out =>
      let field := (parsePlaceholder seg).1
      match slots (String.mk field) with
      | none => .error ("Missing required field " ++ String.mk field ++ " for path template")
      | some v => substituteGo slots rest (replaceAllL ('{' :: (seg ++ ['}'])) v.toList out)

/-- `_substitute(template, schema_obj)`. -/
def substitute (template : String) (slots : Slots) : Except String String :=
  (substituteGo slots (extractPlaceholdersL template.toList) template.toList).map String.mk

/-- `tmpl.startswith("{") and tmpl.endswith("}")`. -/
def isBraceWrapped (t : String) : Bool :=
  t.toList.head? = some '{' && t.toList.getLast? = some '}'

/-- `tmpl[1:-1]`. -/
def braceInner (t : String) : List Char := (t.toList.drop 1).dropLast

/-- Append-if-absent, preserving first-occurrence order (the `if field not in
required: required.append(field)` idiom). -/
def addUnique (l : List String) (x : String) : List String :=
  if x ∈ l then l else l ++ [x]

/-- `EndpointRegistry.required_slots`: fields of all path placeholders, then
fields of non-optional param placeholders. -/
def requiredSlots (ed : EndpointDef) : List String :=
  let fromPath := (extractPlaceholdersL ed.path.toList).foldl
    (fun acc seg => addUnique acc (String.mk (parsePlaceholder seg).1)) []
  ed.params.foldl
    (fun acc kv =>
      if isBraceWrapped kv.2 then
        let (field, optional) := parsePlaceholder (braceInner kv.2)
        if optional then acc else addUnique acc (String.mk field)
      else acc)
    fromPath

/-- `_template_value`: a non-placeholder param template is passed through
literally; a placeholder param reads the field and yields `_MISSING` (here
`none`) when the field is absent, optional or not. -/
def templateValue (t : String) (slots : Slots) : Option String :=
  if isBraceWrapped t then
    slots (String.mk (parsePlaceholder (braceInner t)).1)
  else some t

/-- `EndpointRegistry.resolve` for a known definition: substitute the path,
build params from their templates (missing values omitted). -/
def resolveDef (ed : EndpointDef) (slots : Slots) :
    Except String (String × String × List (String × String)) :=
  match substitute ed.path slots with
  | .error e => .error e
  | .ok path =>
      let params := ed.params.foldl
        (fun acc kv =>
          match templateValue kv.2 slots with
          | some v => acc ++ [(kv.1, v)]
          | none => acc)
        []
      .ok (ed.method, path, params)

/-- `EndpointRegistry.resolve` including the `_by_schema` lookup: the dict is
built by iterating the item list, so a duplicated schema name is last-wins. -/
def registryResolve (items : List EndpointDef) (schemaName : String) (slots : Slots) :
    Except String (String × String × List (String × String)) :=
  match items.reverse.find? (fun ed => ed.schema = schemaName) with
  | none => .error ("Schema " ++ schemaName ++ " not in registry")
  | some ed => resolveDef ed slots

/-! ### Path classification (`_template_to_regex` + `classify_path`)

`_template_to_regex` compiles a template to
`^ lit ([^/]+) lit ... (?:\?.*)?$`; `re.fullmatch` semantics are existential,
so we implement a direct backtracking matcher over the alternating
literal/placeholder segments. -/

inductive TplSeg where
  | lit (s : List Char)
  | ph
  deriving Repr, DecidableEq

/-- Segments of a template as `_template_to_regex` scans them: each
`{...}` becomes a single-segment wildcard; an unmatched `{` makes the whole
remainder a literal.  (The source collects a maximal literal run between
placeholders into one escaped regex chunk; emitting the same characters as
single-character literal segments is the identical regex concatenation, so
the matcher below is unchanged.) -/
def templateSegsF : ℕ → List Char → List TplSeg
  | _, [] => []
  | 0, cs => [.lit cs]
  | fuel + 1, c :: rest =>
      if c = '{' then
        match splitAtCloseBrace rest with
        | some (_, rest') => .ph :: templateSegsF fuel rest'
        | none => [.lit (c :: rest)]
      else .lit [c] :: templateSegsF fuel rest

def templateSegs (l : List Char) : List TplSeg := templateSegsF l.length l

mutual

/-- Does `^segs(?:\?.*)?$` fully match the char list?  Fuelled: every
recursive call strictly decreases `2 * |chars| + |segments|`, so fuel
`≥ 2 * |chars| + |segments| + 1` (which the wrappers pass) always suffices;
the explicit fuel makes the mutual recursion structural. -/
def segsMatchF : ℕ → List TplSeg → List Char → Bool
  | 0, _, _ => false
  | _ + 1, [], cs => cs.isEmpty || cs.head? == some '?'
  | fuel + 1, .lit l :: rest, cs => l.isPrefixOf cs && segsMatchF fuel rest (cs.drop l.length)
  | fuel + 1, .ph :: rest, cs => phMatchF fuel rest cs

/-- `([^/]+)` then the rest: consume one or more non-`/` characters, then
match the remaining segments (trying every split). -/
def phMatchF : ℕ → List TplSeg → List Char → Bool
  | 0, _, _ => false
  | _ + 1, _, [] => false
  | fuel + 1, rest, c :: cs => !(c == '/') && (segsMatchF fuel rest cs || phMatchF fuel rest cs)

end

def segsMatch (segs : List TplSeg) (cs : List Char) : Bool :=
  segsMatchF (2 * cs.length + segs.length + 1) segs cs

/-- `EndpointRegistry.classify_path`: the schema of the first template that
fully matches. -/
def classifyPath (items : List EndpointDef) (path : String) : Option String :=
  (items.find? (fun it => segsMatch (templateSegs it.path.toList) path.toList)).map (·.schema)

/-- Modelled from the spec: the declarative endpoint table
(`configs/endpoints.yaml`) is data of this repository that is not under
`src/`; only its consumers are.  The intent list follows spec §3
(StructuredRequest, one shape per intent, names as in
`src/app/schemas/requests.py`), the concrete method/path/query templates
follow spec §4.1/§6 and the identical paths hard-coded in
`src/app/adapters/finam_client.py`; `synonyms`/`keywords` (used by the
extractor's intent scoring, spec §4.2) are representative Russian phrases
per intent. -/
def modelledEndpoints : List EndpointDef :=
  [ { schema := "QuoteRequest", method := "GET",
      path := "/v1/instruments/{symbol}/quotes/latest",
      synonyms := ["котировка", "цена"], keywords := ["стоимость"] },
    { schema := "OrderbookRequest", method := "GET",
      path := "/v1/instruments/{symbol}/orderbook",
      params := [("depth", "{depth?}")],
      synonyms := ["стакан", "orderbook"], keywords := ["заявки"] },
    { schema := "BarsRequest", method := "GET",
      path := "/v1/instruments/{symbol}/bars",
      params := [("timeframe", "{timeframe}"),
                 ("interval.start_time", "{start?}"), ("interval.end_time", "{end?}")],
      synonyms := ["свечи", "бары"], keywords := ["история"] },
    { schema := "AccountRequest", method := "GET",
      path := "/v1/accounts/{account_id}",
      synonyms := ["счёт", "портфель"], keywords := ["баланс"] },
    { schema := "OrdersListRequest", method := "GET",
      path := "/v1/accounts/{account_id}/orders",
      synonyms := ["ордера", "мои ордера"], keywords := ["заявки"] },
    { schema := "OrderGetRequest", method := "GET",
      path := "/v1/accounts/{account_id}/orders/{order_id}",
      synonyms := ["статус ордера"], keywords := ["ордер"] },
    { schema := "OrderCancelRequest", method := "DELETE",
      path := "/v1/accounts/{account_id}/orders/{order_id}",
      synonyms := ["отменить ордер", "отмена"], keywords := ["отмен"] },
    { schema := "TradesRequest", method := "GET",
      path := "/v1/accounts/{account_id}/trades",
      params := [("interval.start_time", "{start?}"), ("interval.end_time", "{end?}")],
      synonyms := ["мои сделки", "история сделок"], keywords := ["сделки"] },
    { schema := "TransactionsRequest", method := "GET",
      path := "/v1/accounts/{account_id}/transactions",
      params := [("interval.start_time", "{start?}"), ("interval.end_time", "{end?}"),
                 ("limit", "{limit?}")],
      synonyms := ["транзакции"], keywords := ["движения"] },
    { schema := "AssetInfoRequest", method := "GET",
      path := "/v1/assets/{symbol}",
      synonyms := ["информация об инструменте"], keywords := ["фьючерс"] },
    { schema := "AssetParamsRequest", method := "GET",
      path := "/v1/assets/{symbol}/params",
      params := [("account_id", "{account_id?}")],
      synonyms := ["параметры инструмента"], keywords := ["лот", "шаг цены"] },
    { schema := "AssetScheduleRequest", method := "GET",
      path := "/v1/assets/{symbol}/schedule",
      synonyms := ["расписание торгов"], keywords := ["клиринг"] },
    { schema := "AssetOptionsRequest", method := "GET",
      path := "/v1/assets/{symbol}/options",
      synonyms := ["цепочка опционов"], keywords := ["опцион"] },
    { schema := "AssetsListRequest", method := "GET",
      path := "/v1/assets",
      synonyms := ["список инструментов"], keywords := ["инструменты"] },
    { schema := "ExchangesListRequest", method := "GET",
      path := "/v1/exchanges",
      synonyms := ["биржи"], keywords := ["биржа"] },
    { schema := "SessionDetailsRequest", method := "POST",
      path := "/v1/sessions/details",
      synonyms := ["сессия"], keywords := ["токен"] },
    { schema := "TradesLatestRequest", method := "GET",
      path := "/v1/instruments/{symbol}/trades/latest",
      synonyms := ["лента сделок", "последние сделки"], keywords := ["лента"] } ]

/-- Canonical slot values used to exercise the round-trip: one fully-resolved
value per slot name (all required fields present). -/
def canonicalSlots : Slots := fun f =>
  if f = "symbol" then some "SBER@MISX"
  else if f = "account_id" then some "A1"
  else if f = "order_id" then some "ORD1"
  else if f = "timeframe" then some "TIME_FRAME_D"
  else if f = "depth" then some "10"
  else none

/-- Resolve an intent through the registry with the canonical slot values and
classify the resulting path back. -/
def roundTrip (items : List EndpointDef) (schemaName : String) : Option String :=
  match registryResolve items schemaName canonicalSlots with
  | .ok (_, path, _) => classifyPath items path
  | .error _ => none

/-! ### Placeholder totality (C5)

To reason about `_substitute` on arbitrary well-formed templates we
represent a template as alternating literal/placeholder segments and relate
`_extract_placeholders` / `str.replace` to that representation. -/

inductive PathSeg where
  | lit (s : List Char)
  | ph (name : List Char)
  deriving Repr, DecidableEq

def renderTpl : List PathSeg → List Char
  | [] => []
  | .lit s :: rest => s ++ renderTpl rest
  | .ph n :: rest => '{' :: (n ++ '}' :: renderTpl rest)

def phNames : List PathSeg → List (List Char)
  | [] => []
  | .lit _ :: rest => phNames rest
  | .ph n :: rest => n :: phNames rest

/-- Well-formedness of one segment: literal text and placeholder names
contain no brace characters (true of every template in the registry). -/
def segWF : PathSeg → Prop
  | .lit s => '{' ∉ s ∧ '}' ∉ s
  | .ph n => '{' ∉ n ∧ '}' ∉ n

instance : DecidablePred segWF := by
  intro sg; cases sg <;> simp only [segWF] <;> infer_instance

lemma extract_cons_ne (c : Char) (l : List Char) (hc : c ≠ '{') :
    extractPlaceholdersL (c :: l) = extractPlaceholdersL l := by
  show extractPlaceholdersF (l.length + 1) (c :: l) = extractPlaceholdersL l
  rw [extractPlaceholdersF_step () l.length, if_neg hc]
  rfl

lemma extract_append_bracefree (s t : List Char) (hs : '{' ∉ s) :
    extractPlaceholdersL (s ++ t) = extractPlaceholdersL t := by
  induction s with
  | nil => rfl
  | cons c s' ih =>
      have hc : c ≠ '{' := by intro h; exact hs (h ▸ List.mem_cons_self c s')
      have hs' : '{' ∉ s' := fun h => hs (List.mem_cons_of_mem c h)
      rw [List.cons_append, extract_cons_ne c (s' ++ t) hc, ih hs']

lemma extract_bracefree (s : List Char) (hs : '{' ∉ s) :
    extractPlaceholdersL s = [] := by
  have h := extract_append_bracefree s [] hs
  rw [List.append_nil] at h
  rw [h, extract_nil]

lemma splitAtCloseBrace_exact (n t : List Char) (hn : '}' ∉ n) :
    splitAtCloseBrace (n ++ '}' :: t) = some (n, t) := by
  induction n with
  | nil => simp [splitAtCloseBrace]
  | cons c n' ih =>
      have hc : c ≠ '}' := by intro h; exact hn (h ▸ List.mem_cons_self c n')
      have hn' : '}' ∉ n' := fun h => hn (List.mem_cons_of_mem c h)
      rw [List.cons_append, splitAtCloseBrace, if_neg hc, ih hn']

lemma extract_render (segs : List PathSeg) (hwf : ∀ sg ∈ segs, segWF sg) :
    extractPlaceholdersL (renderTpl segs) = phNames segs := by
  induction segs with
  | nil => rw [renderTpl, phNames, extract_nil]
  | cons sg rest ih =>
      have hsg := hwf sg (List.mem_cons_self sg rest)
      have hrest : ∀ s ∈ rest, segWF s := fun s hs => hwf s (List.mem_cons_of_mem sg hs)
      cases sg with
      | lit s =>
          rw [renderTpl, phNames, extract_append_bracefree s _ hsg.1, ih hrest]
      | ph n =>
          rw [renderTpl, phNames]
          rw [extract_brace_some _ _ _ (splitAtCloseBrace_exact n _ hsg.2)]
          rw [ih hrest]

lemma replace_cons_ne (pat repl : List Char) (c : Char) (t : List Char)
    (hpat : pat.head? = some '{') (hc : c ≠ '{') :
    replaceAllL pat repl (c :: t) = c :: replaceAllL pat repl t := by
  apply replaceAllL_cons_nomatch
  intro h
  rcases h with ⟨hne, hpre⟩
  cases pat with
  | nil => exact hne rfl
  | cons p ps =>
      simp only [List.head?, Option.some.injEq] at hpat
      simp only [List.isPrefixOf, Bool.and_eq_true, beq_iff_eq] at hpre
      exact hc (by rw [← hpre.1, hpat])

lemma replace_append_bracefree (pat repl s t : List Char)
    (hpat : pat.head? = some '{') (hs : '{' ∉ s) :
    replaceAllL pat repl (s ++ t) = s ++ replaceAllL pat repl t := by
  induction s with
  | nil => rfl
  | cons c s' ih =>
      have hc : c ≠ '{' := by intro h; exact hs (h ▸ List.mem_cons_self c s')
      have hs' : '{' ∉ s' := fun h => hs (List.mem_cons_of_mem c h)
      rw [List.cons_append, replace_cons_ne pat repl c _ hpat hc, ih hs']
      rfl

lemma not_prefix_of_ne_names (n m t : List Char) (hne : n ≠ m)
    (hn : '}' ∉ n) (hm : '}' ∉ m) :
    ¬ (n ++ ['}']).isPrefixOf (m ++ '}' :: t) = true := by
  induction n generalizing m with
  | nil =>
      cases m with
      | nil => exact absurd rfl hne
      | cons c m' =>
          have hc : c ≠ '}' := by intro h; exact hm (h ▸ List.mem_cons_self c m')
          intro h
          simp only [List.cons_append, List.nil_append, List.isPrefixOf, Bool.and_eq_true,
            beq_iff_eq] at h
          exact hc h.1.symm
  | cons c n' ih =>
      cases m with
      | nil =>
          have hc : c ≠ '}' := by intro h; exact hn (h ▸ List.mem_cons_self c n')
          intro h
          simp only [List.cons_append, List.nil_append, List.isPrefixOf, Bool.and_eq_true,
            beq_iff_eq] at h
          exact hc h.1
      | cons d m' =>
          by_cases hcd : c = d
          · subst hcd
            have hne' : n' ≠ m' := by intro h; exact hne (by rw [h])
            have hn' : '}' ∉ n' := fun h => hn (List.mem_cons_of_mem c h)
            have hm' : '}' ∉ m' := fun h => hm (List.mem_cons_of_mem c h)
            intro h
            simp only [List.cons_append, List.isPrefixOf, Bool.and_eq_true, beq_iff_eq] at h
            exact ih m' hne' hn' hm' h.2
          · intro h
            simp only [List.cons_append, List.isPrefixOf, Bool.and_eq_true, beq_iff_eq] at h
            exact hcd h.1

/-- Replace one placeholder's occurrences by a literal value. -/
def replaceSeg (n v : List Char) : PathSeg → PathSeg
  | .ph m => if m = n then .lit v else .ph m
  | sg => sg

lemma isPrefixOf_append_same (xs ys zs : List Char) :
    (xs ++ ys).isPrefixOf (xs ++ zs) = ys.isPrefixOf zs := by
  induction xs with
  | nil => rfl
  | cons c xs ih => simp [List.isPrefixOf, ih]

lemma pattern_string_eq (n r : List Char) :
    '{' :: (n ++ '}' :: r) = ('{' :: (n ++ ['}'])) ++ r := by
  simp

lemma wf_map_replaceSeg (segs : List PathSeg) (n v : List Char)
    (hwf : ∀ sg ∈ segs, segWF sg) (hv : '{' ∉ v ∧ '}' ∉ v) :
    ∀ sg ∈ segs.map (replaceSeg n v), segWF sg := by
  intro sg hsg
  rcases List.mem_map.mp hsg with ⟨sg0, hsg0, rfl⟩
  cases sg0 with
  | lit s => exact hwf _ hsg0
  | ph m =>
      by_cases hm : m = n
      · simp only [replaceSeg, hm, if_pos rfl]
        exact hv
      · simp only [replaceSeg, if_neg hm]
        exact hwf _ hsg0

lemma ph_mem_map_replaceSeg (segs : List PathSeg) (n v m : List Char)
    (h : .ph m ∈ segs.map (replaceSeg n v)) : m ≠ n ∧ .ph m ∈ segs := by
  rcases List.mem_map.mp h with ⟨sg0, hsg0, heq⟩
  cases sg0 with
  | lit s => simp [replaceSeg] at heq
  | ph m0 =>
      by_cases hm : m0 = n
      · simp [replaceSeg, hm] at heq
      · simp only [replaceSeg, if_neg hm] at heq
        injection heq with e
        subst e
        exact ⟨hm, hsg0⟩

lemma replace_render (segs : List PathSeg) (n v : List Char)
    (hwf : ∀ sg ∈ segs, segWF sg) (hn : '{' ∉ n ∧ '}' ∉ n) (hv : '{' ∉ v ∧ '}' ∉ v) :
    replaceAllL ('{' :: (n ++ ['}'])) v (renderTpl segs) =
      renderTpl (segs.map (replaceSeg n v)) := by
  have hpat : ('{' :: (n ++ ['}'])).head? = some '{' := rfl
  induction segs with
  | nil => rfl
  | cons sg rest ih =>
      have hsg := hwf sg (List.mem_cons_self sg rest)
      have hrest : ∀ s ∈ rest, segWF s := fun s hs => hwf s (List.mem_cons_of_mem sg hs)
      cases sg with
      | lit s =>
          rw [List.map_cons]
          show replaceAllL _ v (s ++ renderTpl rest) = renderTpl (.lit s :: _)
          rw [replace_append_bracefree _ v s _ hpat hsg.1, ih hrest, renderTpl]
      | ph m =>
          by_cases hm : m = n
          · subst hm
            rw [List.map_cons]
            show replaceAllL _ v ('{' :: (m ++ '}' :: renderTpl rest)) =
              renderTpl (replaceSeg m v (.ph m) :: _)
            have hpre : ('{' :: (m ++ ['}'])).isPrefixOf ('{' :: (m ++ '}' :: renderTpl rest)) = true := by
              rw [pattern_string_eq m (renderTpl rest)]
              rw [show ('{' :: (m ++ ['}'])) ++ renderTpl rest =
                    ('{' :: (m ++ ['}'])) ++ renderTpl rest from rfl]
              rw [show ('{' :: (m ++ ['}'])).isPrefixOf (('{' :: (m ++ ['}'])) ++ renderTpl rest) =
                    (('{' :: (m ++ ['}'])) ++ []).isPrefixOf (('{' :: (m ++ ['}'])) ++ renderTpl rest) from by
                  rw [List.append_nil]]
              rw [isPrefixOf_append_same]
              simp [List.isPrefixOf]
            rw [show ('{' :: (m ++ '}' :: renderTpl rest)) =
                  '{' :: ((m ++ '}' :: renderTpl rest)) from rfl]
            rw [replaceAllL_cons_match _ v '{' _ ⟨by simp, hpre⟩]
            have hdrop : (('{' :: (m ++ '}' :: renderTpl rest)).drop ('{' :: (m ++ ['}'])).length) =
                renderTpl rest := by
              rw [pattern_string_eq m (renderTpl rest), List.drop_left]
            rw [hdrop, ih hrest]
            simp [replaceSeg, renderTpl]
          · rw [List.map_cons]
            show replaceAllL _ v ('{' :: (m ++ '}' :: renderTpl rest)) =
              renderTpl (replaceSeg n v (.ph m) :: _)
            have hnp : ('{' :: (n ++ ['}'])).isPrefixOf ('{' :: (m ++ '}' :: renderTpl rest)) = false := by
              rw [List.isPrefixOf]
              simp only [beq_self_eq_true, Bool.true_and]
              exact Bool.eq_false_iff.mpr
                (not_prefix_of_ne_names n m (renderTpl rest) (fun h => hm (h.symm)) hn.2 hsg.2)
            rw [replaceAllL_cons_nomatch _ v '{' _
              (by intro hcon; rw [hnp] at hcon; exact absurd hcon.2 (by simp))]
            rw [replace_append_bracefree _ v m _ hpat hsg.1]
            rw [replace_cons_ne _ v '}' _ hpat (by decide)]
            rw [ih hrest]
            simp only [replaceSeg, if_neg hm, renderTpl]

lemma phNames_nil_of_no_ph (segs : List PathSeg)
    (h : ∀ n, .ph n ∈ segs → False) : phNames segs = [] := by
  induction segs with
  | nil => rfl
  | cons sg rest ih =>
      cases sg with
      | lit s =>
          rw [phNames]
          exact ih (fun n hn => h n (List.mem_cons_of_mem _ hn))
      | ph n => exact absurd (List.mem_cons_self _ _) (fun hc => h n hc)

lemma mem_of_mem_phNames (segs : List PathSeg) :
    ∀ n ∈ phNames segs, .ph n ∈ segs := by
  induction segs with
  | nil => intro n hn; simp [phNames] at hn
  | cons sg rest ih =>
      intro n hn
      cases sg with
      | lit s =>
          rw [phNames] at hn
          exact List.mem_cons_of_mem _ (ih n hn)
      | ph m =>
          rw [phNames] at hn
          rcases List.mem_cons.mp hn with h | h
          · rw [h]; exact List.mem_cons_self _ _
          · exact List.mem_cons_of_mem _ (ih n h)

lemma substGo_render (slots : Slots) :
    ∀ (names : List (List Char)) (segs : List PathSeg),
      (∀ sg ∈ segs, segWF sg) →
      (∀ n, .ph n ∈ segs → n ∈ names) →
      (∀ n ∈ names, ('{' ∉ n ∧ '}' ∉ n) ∧
        ∃ v, slots (String.mk (parsePlaceholder n).1) = some v ∧
          '{' ∉ v.toList ∧ '}' ∉ v.toList) →
      ∃ out, substituteGo slots names (renderTpl segs) = .ok out ∧
        extractPlaceholdersL out = [] := by
  intro names
  induction names with
  | nil =>
      intro segs hwf hph _
      refine ⟨renderTpl segs, rfl, ?_⟩
      rw [extract_render segs hwf]
      exact phNames_nil_of_no_ph segs (fun n hn => by simpa using hph n hn)
  | cons n rest ih =>
      intro segs hwf hph hnames
      obtain ⟨hnwf, v, hv, hv1, hv2⟩ := hnames n (List.mem_cons_self n rest)
      have hstep : substituteGo slots (n :: rest) (renderTpl segs) =
          substituteGo slots rest
            (replaceAllL ('{' :: (n ++ ['}'])) v.toList (renderTpl segs)) := by
        rw [substituteGo, hv]
      rw [hstep, replace_render segs n v.toList hwf hnwf ⟨hv1, hv2⟩]
      refine ih (segs.map (replaceSeg n v.toList))
        (wf_map_replaceSeg segs n v.toList hwf ⟨hv1, hv2⟩) ?_ ?_
      · intro m hm
        obtain ⟨hmn, hmem⟩ := ph_mem_map_replaceSeg segs n v.toList m hm
        rcases List.mem_cons.mp (hph m hmem) with h | h
        · exact absurd h hmn
        · exact h
      · intro m hm
        exact hnames m (List.mem_cons_of_mem n hm)

lemma mem_phNames_of_mem (segs : List PathSeg) :
    ∀ n, .ph n ∈ segs → n ∈ phNames segs := by
  induction segs with
  | nil => intro n hn; simp at hn
  | cons sg rest ih =>
      intro n hn
      rcases List.mem_cons.mp hn with h | h
      · rw [← h]; exact List.mem_cons_self _ _
      · cases sg with
        | lit s => exact ih n h
        | ph m => exact List.mem_cons_of_mem _ (ih n h)

lemma substGo_error (slots : Slots) :
    ∀ (names : List (List Char)) (out : List Char),
      (∃ n ∈ names, slots (String.mk (parsePlaceholder n).1) = none) →
      ∃ e, substituteGo slots names out = .error e := by
  intro names
  induction names with
  | nil =>
      intro out h
      rcases h with ⟨n, hn, _⟩
      simp at hn
  | cons n rest ih =>
      intro out h
      cases hv : slots (String.mk (parsePlaceholder n).1) with
      | none => exact ⟨_, by rw [substituteGo, hv]⟩
      | some v =>
          rcases h with ⟨m, hm, hmv⟩
          rcases List.mem_cons.mp hm with heq | hm'
          · rw [heq, hv] at hmv
            exact absurd hmv (by simp)
          · rcases ih (replaceAllL ('{' :: (n ++ ['}'])) v.toList out) ⟨m, hm', hmv⟩ with ⟨e, he⟩
            exact ⟨e, by rw [substituteGo, hv]; exact he⟩

/-- **C5, counterexample.**  The claim says resolving a structured request
that satisfies all of its intent's `requiredSlots` never leaves a `{...}`
token in the output path.  But field *presence* is all `_substitute` checks:
a request whose `account_id` field holds the literal string
`"{account_id}"` — exactly what `extract_structured` stores when the account
id is missing from text and context — satisfies the required slot, resolves
without error, and the resolved path still contains the `{account_id}`
token. -/
def placeholderSlots : Slots :=
  fun f => if f = "account_id" then some "{account_id}" else none

/-- **C5, counterexample** (see `placeholderSlots`). -/
theorem c5_residual_token_counterexample :
    requiredSlots { schema := "OrdersListRequest", method := "GET",
                    path := "/v1/accounts/{account_id}/orders" } = ["account_id"] ∧
      placeholderSlots "account_id" = some "{account_id}" ∧
      substitute "/v1/accounts/{account_id}/orders" placeholderSlots =
        Except.ok "/v1/accounts/{account_id}/orders" ∧
      extractPlaceholdersL "/v1/accounts/{account_id}/orders".toList ≠ [] :=
  ⟨by decide, rfl, rfl, by decide⟩

/-- **C5, amended**: (i) resolving a structured request that satisfies all of
an intent's `requiredSlots` *with fully-resolved values* (values containing
no brace characters — spec §3 demands field values be fully resolved) never
leaves a `{...}` token in the output path, for every well-formed template
(literals and placeholder names contain no braces); with a value that itself
contains a `{...}` token the token survives into the path (see the
counterexample).  (ii) Whenever a required path field is `None`/absent,
`_substitute` raises a resolution error rather than silently emitting the
literal placeholder. -/
theorem c5_placeholder_totality (segs : List PathSeg) (slots : Slots)
    (hwf : ∀ sg ∈ segs, segWF sg)
    (hvals : ∀ n ∈ phNames segs, ∃ v, slots (String.mk (parsePlaceholder n).1) = some v ∧
      '{' ∉ v.toList ∧ '}' ∉ v.toList) :
    (∃ out, substitute (String.mk (renderTpl segs)) slots = .ok out ∧
      extractPlaceholdersL out.toList = [])
    ∧ ∀ (template : String) (slots' : Slots),
        (∃ seg ∈ extractPlaceholdersL template.toList,
          slots' (String.mk (parsePlaceholder seg).1) = none) →
        ∃ e, substitute template slots' = .error e := by
  constructor
  · have htl : (String.mk (renderTpl segs)).toList = renderTpl segs := rfl
    have hnames : extractPlaceholdersL (renderTpl segs) = phNames segs := extract_render segs hwf
    obtain ⟨out, hok, hext⟩ := substGo_render slots (phNames segs) segs hwf
      (mem_phNames_of_mem segs)
      (by
        intro n hn
        refine ⟨?_, hvals n hn⟩
        have := hwf _ (mem_of_mem_phNames segs n hn)
        exact this)
    refine ⟨String.mk out, ?_, ?_⟩
    · unfold substitute
      rw [htl, hnames, hok]
      rfl
    · show extractPlaceholdersL out = []
      exact hext
  · intro template slots' hmiss
    rcases substGo_error slots' (extractPlaceholdersL template.toList) template.toList hmiss
      with ⟨e, he⟩
    exact ⟨e, by unfold substitute; rw [he]; rfl⟩

/-- Concrete orders-list template used to witness `c5_placeholder_totality`. -/
def demoSegs : List PathSeg :=
  [.lit "/v1/accounts/".toList, .ph "account_id".toList, .lit "/orders".toList]

/-- Witness for `c5_placeholder_totality` at the orders-list template with a
fully-resolved account id. -/
theorem c5_placeholder_totality_witness :
    (∀ sg ∈ demoSegs, segWF sg) ∧
      (∃ out, substitute (String.mk (renderTpl demoSegs)) canonicalSlots = .ok out ∧
        extractPlaceholdersL out.toList = []) := by
  have hvals : ∀ n ∈ phNames demoSegs, ∃ v,
      canonicalSlots (String.mk (parsePlaceholder n).1) = some v ∧
        '{' ∉ v.toList ∧ '}' ∉ v.toList := by
    intro n hn
    have hd : phNames demoSegs = ["account_id".toList] := rfl
    rw [hd] at hn
    have hn' : n = "account_id".toList := by simpa using hn
    subst hn'
    exact ⟨"A1", rfl, by decide, by decide⟩
  exact ⟨by decide, (c5_placeholder_totality demoSegs canonicalSlots (by decide) hvals).1⟩

/-- **C4, counterexample.**  `classify_path` matches templates by path only
(the HTTP method is not consulted) and returns the first match.  In the
modelled registry — as in any faithful one — order-get and order-cancel
share the path template `/v1/accounts/{account_id}/orders/{order_id}` (the
same concrete paths appear in `FinamAPIClient.get_order` and
`FinamAPIClient.cancel_order`), so resolving an order-cancel request and
classifying the resulting path returns `OrderGetRequest`, not the original
intent name. -/
theorem c4_round_trip_counterexample :
    ((modelledEndpoints.find? (fun ed => ed.schema == "OrderCancelRequest")).map (·.path) =
        (modelledEndpoints.find? (fun ed => ed.schema == "OrderGetRequest")).map (·.path)) ∧
      roundTrip modelledEndpoints "OrderCancelRequest" = some "OrderGetRequest" ∧
      some "OrderGetRequest" ≠ some "OrderCancelRequest" := by
  refine ⟨by decide, by decide, by decide⟩

/-- **C4, amended**: for every intent in the (spec-modelled) registry whose
path template is not shared with an earlier-listed intent — i.e. every
intent except order-cancel — building a structured request with all required
fields present (the canonical fully-resolved slot values), resolving it
through `Registry.resolve`, and classifying the resulting path returns the
original intent name.  For order-cancel, classification returns the
earlier-listed order-get, which shares its path template. -/
theorem c4_round_trip (ed : EndpointDef) (hed : ed ∈ modelledEndpoints)
    (hne : ed.schema ≠ "OrderCancelRequest") :
    roundTrip modelledEndpoints ed.schema = some ed.schema := by
  revert hne
  revert hed
  revert ed
  decide

/-- Concrete registry entry used to witness `c4_round_trip`. -/
def quoteEndpointDef : EndpointDef :=
  { schema := "QuoteRequest", method := "GET",
    path := "/v1/instruments/{symbol}/quotes/latest",
    synonyms := ["котировка", "цена"], keywords := ["стоимость"] }

/-- Witness for `c4_round_trip` at the quote intent. -/
theorem c4_round_trip_witness :
    quoteEndpointDef ∈ modelledEndpoints ∧
      quoteEndpointDef.schema ≠ "OrderCancelRequest" ∧
      roundTrip modelledEndpoints quoteEndpointDef.schema = some quoteEndpointDef.schema :=
  ⟨by decide, by decide, c4_round_trip quoteEndpointDef (by decide) (by decide)⟩

/-! ## Intent fingerprints (`src/app/core/security.py`)

`generate_intent_hash` is `sha256(f"{method}|{path}|{body or ''}".encode("utf-8")).hexdigest()`.
SHA-256 is implemented below over `ℕ` with explicit reduction mod `2^32`.
The strings hashed by the orchestrator (`METHOD|/v1/...|`) are ASCII, where
UTF-8 encoding is the identity on code points, so bytes are taken as
`Char.toNat`. -/

def w32 (n : ℕ) : ℕ := n % 4294967296

def rotr32 (k x : ℕ) : ℕ := w32 ((x >>> k) ||| (x <<< (32 - k)))

def sha256K : List ℕ :=
  [1116352408, 1899447441, 3049323471, 3921009573, 961987163, 1508970993,
   2453635748, 2870763221, 3624381080, 310598401, 607225278, 1426881987,
   1925078388, 2162078206, 2614888103, 3248222580, 3835390401, 4022224774,
   264347078, 604807628, 770255983, 1249150122, 1555081692, 1996064986,
   2554220882, 2821834349, 2952996808, 3210313671, 3336571891, 3584528711,
   113926993, 338241895, 666307205, 773529912, 1294757372, 1396182291,
   1695183700, 1986661051, 2177026350, 2456956037, 2730485921, 2820302411,
   3259730800, 3345764771, 3516065817, 3600352804, 4094571909, 275423344,
   430227734, 506948616, 659060556, 883997877, 958139571, 1322822218,
   1537002063, 1747873779, 1955562222, 2024104815, 2227730452, 2361852424,
   2428436474, 2756734187, 3204031479, 3329325298]

def sha256H0 : List ℕ :=
  [1779033703, 3144134277, 1013904242, 2773480762,
   1359893119, 2600822924, 528734635, 1541459225]

def bigEndian8 (n : ℕ) : List ℕ :=
  [(n >>> 56) % 256, (n >>> 48) % 256, (n >>> 40) % 256, (n >>> 32) % 256,
   (n >>> 24) % 256, (n >>> 16) % 256, (n >>> 8) % 256, n % 256]

/-- SHA-256 padding: `0x80`, zeros to 56 mod 64, then the 64-bit big-endian
bit length. -/
def sha256Pad (msg : List ℕ) : List ℕ :=
  let L := msg.length
  let k := (64 + 56 - ((L + 1) % 64)) % 64
  msg ++ [0x80] ++ List.replicate k 0 ++ bigEndian8 (L * 8)

def sha256Blocks : ℕ → List ℕ → List (List ℕ)
  | 0, _ => []
  | _, [] => []
  | fuel + 1, l => l.take 64 :: sha256Blocks fuel (l.drop 64)

def bytesToWords : ℕ → List ℕ → List ℕ
  | 0, _ => []
  | _, [] => []
  | fuel + 1, l => (l.getD 0 0 <<< 24 ||| l.getD 1 0 <<< 16 ||| l.getD 2 0 <<< 8 ||| l.getD 3 0)
      :: bytesToWords fuel (l.drop 4)

def ssig0 (x : ℕ) : ℕ := rotr32 7 x ^^^ rotr32 18 x ^^^ (x >>> 3)
def ssig1 (x : ℕ) : ℕ := rotr32 17 x ^^^ rotr32 19 x ^^^ (x >>> 10)
def bsig0 (x : ℕ) : ℕ := rotr32 2 x ^^^ rotr32 13 x ^^^ rotr32 22 x
def bsig1 (x : ℕ) : ℕ := rotr32 6 x ^^^ rotr32 11 x ^^^ rotr32 25 x

/-- Message-schedule extension (48 steps); the accumulator keeps the words
latest-first. -/
def sha256Extend : ℕ → List ℕ → List ℕ
  | 0, ws => ws
  | n + 1, ws =>
      sha256Extend n
        (w32 (ssig1 (ws.getD 1 0) + ws.getD 6 0 + ssig0 (ws.getD 14 0) + ws.getD 15 0) :: ws)

def sha256Schedule (block : List ℕ) : List ℕ :=
  (sha256Extend 48 (bytesToWords 16 block).reverse).reverse

def sha256Round (st : List ℕ) (wk : ℕ × ℕ) : List ℕ :=
  match st with
  | [a, b, c, d, e, f, g, h] =>
      let ch := (e &&& f) ^^^ ((4294967295 - e) &&& g)
      let maj := (a &&& b) ^^^ (a &&& c) ^^^ (b &&& c)
      let t1 := w32 (h + bsig1 e + ch + wk.1 + wk.2)
      let t2 := w32 (bsig0 a + maj)
      [w32 (t1 + t2), a, b, c, w32 (d + t1), e, f, g]
  | _ => st

def sha256Compress (h : List ℕ) (block : List ℕ) : List ℕ :=
  let st := ((sha256Schedule block).zip sha256K).foldl sha256Round h
  (h.zip st).map fun p => w32 (p.1 + p.2)

def hexDigit (n : ℕ) : Char :=
  if n < 10 then Char.ofNat (48 + n) else Char.ofNat (87 + n)

def byteToHex (b : ℕ) : List Char := [hexDigit (b / 16), hexDigit (b % 16)]

def wordToBytes (w : ℕ) : List ℕ := [(w >>> 24) % 256, (w >>> 16) % 256, (w >>> 8) % 256, w % 256]

/-- SHA-256 hex digest of a byte list. -/
def sha256Hex (msg : List ℕ) : String :=
  let padded := sha256Pad msg
  let blocks := sha256Blocks (padded.length + 1) padded
  let hfinal := blocks.foldl sha256Compress sha256H0
  String.mk ((hfinal.map wordToBytes).join.map byteToHex).join

/-- `generate_intent_hash(method, path, body)` (ASCII inputs). -/
def generateIntentHash (method path : String) (body : Option String) : String :=
  sha256Hex ((method ++ "|" ++ path ++ "|" ++ body.getD "").toList.map Char.toNat)

/-! ## Idempotency guard (`check_and_remember_idempotency`)

The module-level `_idempotency_store : dict[str, float]` is modelled as a
function `String → Option ℚ`; `time.time()` is the explicit `now`. -/

def IdemStore := String → Option ℚ

def IdemStore.empty : IdemStore := fun _ => none

/-- `check_and_remember_idempotency`: purge entries older than the TTL
(strictly: `now - t > ttl`), refuse if the key is (still) present, else
remember it at `now`.  Returns `(allowed?, updated store)`. -/
def checkAndRememberIdempotency (store : IdemStore) (key : String) (ttl : ℚ) (now : ℚ) :
    Bool × IdemStore :=
  let purged : IdemStore := fun k =>
    match store k with
    | some t => if ttl < now - t then none else some t
    | none => none
  match purged key with
  | some _ => (false, purged)
  | none => (true, fun k => if k = key then some now else purged k)

/-! ## String helpers shared by the orchestration embedding -/

/-- Lowercase of one character (Python `str.lower`) for the alphabets this
code base manipulates: ASCII `A-Z` and Russian `А-Я`/`Ё`. -/
def charLower (c : Char) : Char :=
  if 'A' ≤ c ∧ c ≤ 'Z' then Char.ofNat (c.toNat + 32)
  else if 0x410 ≤ c.toNat ∧ c.toNat ≤ 0x42F then Char.ofNat (c.toNat + 32)
  else if c.toNat = 0x401 then Char.ofNat 0x451
  else c

def strToLower (s : String) : String := ⟨s.data.map charLower⟩

/-- Python whitespace for `str.strip()` / `str.split()`. -/
def isSpaceChar (c : Char) : Bool :=
  c = ' ' || c = '\t' || c = '\n' || c = '\x0d' || c = '\x0b' || c = '\x0c'

def pyStripL (cs : List Char) : List Char :=
  ((cs.dropWhile isSpaceChar).reverse.dropWhile isSpaceChar).reverse

def pyStrip (s : String) : String := String.mk (pyStripL s.toList)

/-- Python `str.strip(ch)` for a single character. -/
def pyStripCharL (ch : Char) (cs : List Char) : List Char :=
  ((cs.dropWhile (· = ch)).reverse.dropWhile (· = ch)).reverse

/-- Python `str.splitlines()` (newline-only, which is all the assistant text
uses): every `\n` ends a line; a final unterminated segment is kept only
when non-empty. -/
def splitLinesGo (acc : List Char) : List Char → List (List Char)
  | [] => if acc.isEmpty then [] else [acc.reverse]
  | c :: rest =>
      if c = '\n' then acc.reverse :: splitLinesGo [] rest
      else splitLinesGo (c :: acc) rest

def splitLines (s : String) : List (List Char) := splitLinesGo [] s.toList

/-- Python `s.split(maxsplit=1)`: leading whitespace dropped, first
whitespace-free token, then the remainder after the separating run; `none`
when there are fewer than two parts. -/
def splitMax1 (cs : List Char) : Option (List Char × List Char) :=
  let cs1 := cs.dropWhile isSpaceChar
  let t1 := cs1.takeWhile (fun c => !isSpaceChar c)
  let rest := (cs1.drop t1.length).dropWhile isSpaceChar
  if t1.isEmpty || rest.isEmpty then none else some (t1, rest)

/-- Python `str.split(sep)` for a one-character separator: empty segments
are kept, including a final one. -/
def pySplitCharGo (sep : Char) (acc : List Char) : List Char → List (List Char)
  | [] => [acc.reverse]
  | c :: rest =>
      if c = sep then acc.reverse :: pySplitCharGo sep [] rest
      else pySplitCharGo sep (c :: acc) rest

def pySplitChar (sep : Char) (cs : List Char) : List (List Char) := pySplitCharGo sep [] cs

/-- Last-wins association lookup (a Python dict built by iterating pairs). -/
def lookupLast (pairs : List (String × String)) (k : String) : Option String :=
  (pairs.reverse.find? (fun p => p.1 == k)).map (·.2)

def digitsToNat (ds : List Char) : ℕ :=
  ds.foldl (fun acc c => acc * 10 + (c.toNat - 48)) 0

def strEndsWith (s suffix : String) : Bool := suffix.toList.isSuffixOf s.toList

/-! ## `extract_api_request` (`src/app/core/parsing.py`) -/

def extractApiFromLines : List (List Char) → Option (String × String)
  | [] => none
  | line :: rest =>
      if ("API_REQUEST:".toList).isPrefixOf (pyStripL line) then
        let request := pyStripL (replaceAllL ("API_REQUEST:".toList) [] line)
        match splitMax1 request with
        | some (m, p) => some (String.mk m, String.mk p)
        | none => extractApiFromLines rest
      else extractApiFromLines rest

/-- `extract_api_request(text)`: `(method, path)` from the first
`API_REQUEST:` line that splits into two parts, else `(None, None)`. -/
def extractApiRequest (text : String) : Option String × Option String :=
  if strContains text "API_REQUEST:" = false then (none, none)
  else
    match extractApiFromLines (splitLines text) with
    | some (m, p) => (some m, some p)
    | none => (none, none)

/-! ## Placeholder utilities (`src/app/orchestration/utils.py`)

`PLACEHOLDER_RE = \{([a-zA-Z0-9_]+)\}`.  The scanner below is the exact
leftmost-match semantics: at a `{`, the greedy word-character run must be
non-empty and followed by `}` (a shorter run would end at a word character,
so backtracking cannot help). -/

def isWordAscii (c : Char) : Bool := c.isAlphanum || c = '_'

def findPlaceholdersF : ℕ → List Char → List (List Char)
  | _, [] => []
  | 0, _ => []
  | fuel + 1, c :: rest =>
      if c = '{' then
        let run := rest.takeWhile isWordAscii
        if run.isEmpty then findPlaceholdersF fuel rest
        else
          match rest.drop run.length with
          | '}' :: rest' => run :: findPlaceholdersF fuel rest'
          | _ => findPlaceholdersF fuel rest
      else findPlaceholdersF fuel rest

/-- `find_placeholders(path)`. -/
def findPlaceholders (path : String) : List String :=
  (findPlaceholdersF path.toList.length path.toList).map String.mk

/-- `substitute_placeholders(path, params)`: replace `{key}` by `params[key]`
when present and truthy, otherwise keep the token and record the key as
missing (in match order, duplicates included). -/
def substitutePlaceholdersF (params : String → Option String) :
    ℕ → List Char → List Char × List String
  | _, [] => ([], [])
  | 0, cs => (cs, [])
  | fuel + 1, c :: rest =>
      if c = '{' then
        let run := rest.takeWhile isWordAscii
        if run.isEmpty then
          let (out, miss) := substitutePlaceholdersF params fuel rest
          (c :: out, miss)
        else
          match rest.drop run.length with
          | '}' :: rest' =>
              let key := String.mk run
              match params key with
              | some v =>
                  if v = "" then
                    let (out, miss) := substitutePlaceholdersF params fuel rest'
                    ('{' :: (run ++ '}' :: out), key :: miss)
                  else
                    let (out, miss) := substitutePlaceholdersF params fuel rest'
                    (v.toList ++ out, miss)
              | none =>
                  let (out, miss) := substitutePlaceholdersF params fuel rest'
                  ('{' :: (run ++ '}' :: out), key :: miss)
          | _ =>
              let (out, miss) := substitutePlaceholdersF params fuel rest
              (c :: out, miss)
      else
        let (out, miss) := substitutePlaceholdersF params fuel rest
        (c :: out, miss)

def substitutePlaceholders (path : String) (params : String → Option String) :
    String × List String :=
  let (out, miss) := substitutePlaceholdersF params path.toList.length path.toList
  (String.mk out, miss)

/-- `disambiguation_prompt(missing_fields)` (`src/app/core/prompting.py`). -/
def disambiguationPrompt (missing : List String) : String :=
  "Не хватает данных для выполнения запроса. Уточните, пожалуйста: " ++
    String.intercalate ", " missing ++ ". Ответьте кратко, только недостающие значения."

/-! ## Symbol/market normalisation (`src/app/core/normalize.py`) -/

/-- `infer_market_symbol`: attach `@MISX` when no market suffix is present. -/
def inferMarketSymbol (s : String) : String :=
  let t := pyStrip s
  if t = "" then t
  else if t.toList.contains '@' then t
  else t ++ "@MISX"

/-- The clock-dependent collaborators of `normalize_symbols_in_path`
(`datetime.now` and `normalize_iso8601`), threaded as an environment. -/
structure ClockEnv where
  nowIso : String
  weekAgoStartIso : String
  normIso : String → String

/-- `tf_map` of `ParameterExtractor.normalize_symbols_in_path`. -/
def tfMap (iv : String) : Option String :=
  if iv = "1d" then some "TIME_FRAME_D"
  else if iv = "1w" then some "TIME_FRAME_W"
  else if iv = "1mn" then some "TIME_FRAME_MN"
  else if iv = "1m" then some "TIME_FRAME_M1"
  else if iv = "5m" then some "TIME_FRAME_M5"
  else if iv = "15m" then some "TIME_FRAME_M15"
  else if iv = "30m" then some "TIME_FRAME_M30"
  else if iv = "1h" then some "TIME_FRAME_H1"
  else if iv = "4h" then some "TIME_FRAME_H4"
  else none

/-- Query pairs: `part.split("=", 1)` for each non-empty `&`-piece,
keeping only two-part splits. -/
def queryPairs (q : List Char) : List (String × String) :=
  (pySplitChar '&' q).foldr
    (fun piece acc =>
      if piece.isEmpty then acc
      else
        let k := piece.takeWhile (· ≠ '=')
        if k.length < piece.length then
          (String.mk k, String.mk (piece.drop (k.length + 1))) :: acc
        else acc)
    []

/-- `ParameterExtractor.normalize_symbols_in_path`:
fix `/bar` → `/bars`, attach a market suffix to the symbol after an
`instruments` segment, and canonicalise `/bars` query parameters to
`timeframe` + `interval.start_time`/`interval.end_time`.  The whole body is
wrapped in `try/except Exception: return path`; the only reachable raise is
the `canonical[...]` KeyError when exactly one of the two interval bounds is
present, which therefore returns the input unchanged. -/
def normalizeSymbolsInPath (env : ClockEnv) (path : String) : String :=
  let cs := path.toList
  let base0 := cs.takeWhile (· ≠ '?')
  let hasQ := base0.length < cs.length
  let query0 := if hasQ then cs.drop (base0.length + 1) else []
  let parts0 := (pySplitChar '/' (pyStripCharL '/' base0)).map String.mk
  let (parts1, changed1) :=
    if parts0 ≠ [] ∧ parts0.getLast? = some "bar" then (parts0.dropLast ++ ["bars"], true)
    else (parts0, false)
  let (parts2, changed2) :=
    if "instruments" ∈ parts1 then
      let idx := parts1.indexOf "instruments"
      if idx + 1 < parts1.length then
        let symbol := parts1.getD (idx + 1) ""
        let fixed := inferMarketSymbol symbol
        if fixed ≠ symbol then (parts1.set (idx + 1) fixed, true) else (parts1, changed1)
      else (parts1, changed1)
    else (parts1, changed1)
  let base : String :=
    if changed2 then "/" ++ String.intercalate "/" parts2 else String.mk base0
  let isBars := strEndsWith base "/bars" || strContains base "/bars/"
  if isBars then
    let pairs := queryPairs query0
    let pmap := lookupLast pairs
    let timeframe : String :=
      match pmap "timeframe" with
      | some tf => tf
      | none =>
          match pmap "interval" with
          | some iv => (tfMap (strToLower iv)).getD "TIME_FRAME_D"
          | none => "TIME_FRAME_D"
    match pmap "interval.start_time", pmap "interval.end_time" with
    | some s, some e =>
        base ++ "?timeframe=" ++ timeframe ++ "&interval.start_time=" ++ s ++
          "&interval.end_time=" ++ e
    | some _, none => path
    | none, some _ => path
    | none, none =>
        let fromIso := (pmap "from").map env.normIso
        let toIso := (pmap "to").map env.normIso
        let startIso :=
          match fromIso with
          | some s => if s = "" then env.weekAgoStartIso else s
          | none => env.weekAgoStartIso
        let endIso :=
          match toIso with
          | some e => if e = "" then env.nowIso else e
          | none => env.nowIso
        base ++ "?timeframe=" ++ timeframe ++ "&interval.start_time=" ++ startIso ++
          "&interval.end_time=" ++ endIso
  else
    base ++ (if query0.isEmpty then "" else "?" ++ String.mk query0)

/-! ## `extract_symbol_from_text` and insights (`src/app/core/wise_orders.py`) -/

def isSymCls (c : Char) : Bool :=
  ('A' ≤ c && c ≤ 'Z') || ('0' ≤ c && c ≤ '9') || c = '_' || c = '.' || c = '-'

def isUpperAZ (c : Char) : Bool := 'A' ≤ c && c ≤ 'Z'

/-- `re.search(r"([A-Z0-9_.-]+@[A-Z]+)", text)`: the leftmost maximal
class-run followed by `@` and at least one `A-Z` letter. -/
def extractSymbolFromTextL : List Char → Option (List Char)
  | [] => none
  | c :: rest =>
      let cs := c :: rest
      let run := cs.takeWhile isSymCls
      if run.isEmpty then extractSymbolFromTextL rest
      else
        match cs.drop run.length with
        | '@' :: after =>
            let mkt := after.takeWhile isUpperAZ
            if mkt.isEmpty then extractSymbolFromTextL rest
            else some (run ++ '@' :: mkt)
        | _ => extractSymbolFromTextL rest

def extractSymbolFromText (text : String) : Option String :=
  (extractSymbolFromTextL text.toList).map String.mk

/-- The two GET requests `compute_market_insights` issues through the
router for a detected symbol (the metrics it derives from the responses are
enrichment data no claim inspects, so only its backend calls are
modelled). -/
def computeMarketInsightsCalls (symbol : String) : List ToolRequest :=
  [⟨"GET", "/v1/instruments/" ++ symbol ++ "/quotes/latest"⟩,
   ⟨"GET", "/v1/instruments/" ++ symbol ++ "/orderbook"⟩]

/-! ## Best-effort order body building (`execute_graph`, POST `.../orders`) -/

structure OrderJson where
  symbol : String
  side : String
  order_type : String
  quantity : ℕ
  time_in_force : String
  price : Option ℚ
  deriving Repr, DecidableEq

/-- `re.search(r"(\d+)\s*лот\w*", txt)`: leftmost digit run followed by
optional whitespace and `лот`. -/
def findQtyL : List Char → Option ℕ
  | [] => none
  | c :: rest =>
      let cs := c :: rest
      let ds := cs.takeWhile Char.isDigit
      if ds.isEmpty then findQtyL rest
      else
        let after := (cs.drop ds.length).dropWhile isSpaceChar
        if ("лот".toList).isPrefixOf after then some (digitsToNat ds)
        else findQtyL rest

/-- `re.search(r"по\s*(\d+[\.,]?\d*)", txt)` with
`float(p.replace(",", "."))`. -/
def findPriceL : List Char → Option ℚ
  | [] => none
  | c :: rest =>
      let cs := c :: rest
      if ("по".toList).isPrefixOf cs then
        let after := (cs.drop 2).dropWhile isSpaceChar
        let d1 := after.takeWhile Char.isDigit
        if d1.isEmpty then findPriceL rest
        else
          match after.drop d1.length with
          | sep :: tl =>
              if sep = '.' ∨ sep = ',' then
                let d2 := tl.takeWhile Char.isDigit
                some ((digitsToNat d1 : ℚ) + (digitsToNat d2 : ℚ) / (10 ^ d2.length : ℕ))
              else some ((digitsToNat d1 : ℚ))
          | [] => some ((digitsToNat d1 : ℚ))
      else findPriceL rest

/-- The "Best-effort build JSON for order creation" block of
`execute_graph` (`graph.py` lines 248–289), producing the `json` kwarg when
side, quantity and symbol can be inferred from the text. -/
def buildOrderBody (text path : String) : Option OrderJson :=
  let txt := strToLower text
  let side : Option String :=
    if strContains txt "куп" || strContains txt "buy" then some "buy"
    else if strContains txt "прод" || strContains txt "sell" then some "sell"
    else none
  let explicitType : Option String :=
    if strContains txt "лимит" || strContains txt "limit" then some "limit"
    else if strContains txt "рынок" || strContains txt "market" then some "market"
    else none
  let tif : Option String :=
    if strContains txt "day" || strContains txt "день" || strContains txt "сегодня" then some "DAY"
    else none
  let qty := findQtyL txt.toList
  let price := findPriceL txt.toList
  let sym0 :=
    match extractSymbolFromText path with
    | some s => some s
    | none => extractSymbolFromText text
  let sym :=
    match sym0 with
    | some s => some (if s.toList.contains '@' then s else inferMarketSymbol s)
    | none => none
  let orderType : Option String :=
    if explicitType = some "market" ∧ price = none then some "market"
    else if price ≠ none then some "limit"
    else none
  match sym, side, qty with
  | some s, some sd, some q =>
      if q ≠ 0 ∧ (orderType = some "market" ∨ (orderType = some "limit" ∧ price ≠ none)) then
        let sideOut := if sd = "buy" then "BUY" else if sd = "sell" then "SELL" else strToUpper sd
        let typeOut := if orderType.getD "market" = "market" then "MARKET" else "LIMIT"
        some { symbol := s, side := sideOut, order_type := typeOut, quantity := q,
               time_in_force := strToUpper (tif.getD "DAY"),
               price := if typeOut = "LIMIT" ∧ price ≠ none then price else none }
      else none
  | _, _, _ => none

/-! ## Orchestration state machine (`src/app/orchestration/graph.py`)

`execute_graph(assistant_text, router, ctx)` is embedded with its stateful
collaborators made explicit: the idempotency store is threaded in and out,
`time.time()` is the `now` parameter, the router backend / extractors /
`load_policy()` / clock-dependent normalisation live in `GraphDeps`, and
every router call is recorded.  Stage timings are abstracted to the ordered
list of stage names (`perf_counter` durations carry no logic); the OTel
spans and Prometheus metrics are observability no-ops. -/

structure OrchestrationContext where
  dry_run : Bool := true
  account_id : Option String := none
  confirm : Bool := false
  deriving Repr, DecidableEq

/-- The predicates of a router response that `execute_graph` inspects, plus
the diagnostic attachments it may add. -/
structure PyResp where
  isDict : Bool := true
  status400 : Bool := false
  hasError : Bool := false
  tag : ℕ := 0
  orderAttempts : Bool := false
  postVerify : Bool := false
  deriving Repr, DecidableEq

/-- The body (`json` kwarg) of a router call. -/
inductive CallBody where
  | noBody
  | orderFlat (o : OrderJson)
  | orderNestedOf (flat : Option OrderJson)
  deriving Repr, DecidableEq

inductive DataVal where
  | dryRun
  | resp (r : PyResp)
  deriving Repr, DecidableEq

/-- `OrchestrationResult` (`src/app/orchestration/types.py`); `api` is the
`{"method": ..., "path": ...}` dict. -/
structure OResult where
  disambiguation : Bool := false
  requires_confirmation : Bool := false
  message : Option String := none
  api : Option (Option String × Option String) := none
  data : Option DataVal := none
  error : Option String := none
  insights : Option String := none
  suggestions : Option String := none
  traceStages : List String := []

structure GraphDeps where
  policy : SafetyPolicy
  router : ToolRequest → CallBody → PyResp
  extractStructured : String → Option String × List String
  extractLLM : String → Option String × List String
  buildFromSchema : String → String × String
  clock : ClockEnv
  confirmTtl : ℤ := 60
  idemTtl : ℚ := 60

structure GraphOut where
  result : OResult
  store : IdemStore
  routerCalls : List (ToolRequest × CallBody)
  audits : List (String × String × String)
  extractorCalls : ℕ

/-- The EXECUTE span (idempotency guard, backend call, 400-fallback,
post-verify) plus POST_PROCESS (insights).  `trace1` is the trace up to and
including the `placeholders` stage. -/
def executeStage (deps : GraphDeps) (now : ℚ) (text : String) (ctx : OrchestrationContext)
    (store : IdemStore) (method path : String) (trace1 : List String) (ecalls : ℕ) :
    GraphOut :=
  let body :=
    if method = "POST" ∧ strEndsWith path "/orders" then
      match buildOrderBody text path with
      | some o => CallBody.orderFlat o
      | none => CallBody.noBody
    else CallBody.noBody
  let req : ToolRequest := ⟨method, path⟩
  let resp0 := deps.router req body
  let calls0 := [(req, body)]
  let (resp1, calls1) :=
    if method = "POST" ∧ strEndsWith path "/orders" ∧ resp0.isDict ∧ resp0.status400 then
      let flat := match body with | .orderFlat o => some o | _ => none
      let nested := CallBody.orderNestedOf flat
      let second := deps.router req nested
      if (second.isDict ∧ second.hasError) then
        ({ resp0 with orderAttempts := true }, calls0 ++ [(req, nested)])
      else (second, calls0 ++ [(req, nested)])
    else (resp0, calls0)
  let (resp2, calls2) :=
    if method = "POST" ∧ strEndsWith path "/orders" then
      match ctx.account_id with
      | some a =>
          if a = "" then (resp1, calls1)
          else
            let op := "/v1/accounts/" ++ a ++ "/orders"
            (({ resp1 with postVerify := true }),
              calls1 ++ [(⟨"GET", op⟩, CallBody.noBody)])
      | none => (resp1, calls1)
    else (resp1, calls1)
  let sym :=
    match extractSymbolFromText path with
    | some s => some s
    | none => extractSymbolFromText text
  let (ins, sugg, calls3) :=
    match sym with
    | some s => (some s, some "",
        calls2 ++ (computeMarketInsightsCalls s).map (fun r => (r, CallBody.noBody)))
    | none => (none, none, calls2)
  { result := { api := some (some method, some path), data := some (.resp resp2),
                insights := ins, suggestions := sugg,
                traceStages := trace1 ++ ["execute"] },
    store := store, routerCalls := calls3,
    audits := [("executed", method, path)], extractorCalls := ecalls }

/-- Stages PLACEHOLDER_FILL → SAFETY_CHECK → CONFIRM_GATE → DRY_RUN_EXIT →
EXECUTE, entered once the planner (or the extractor) produced a method and
path. -/
def afterPlan (deps : GraphDeps) (now : ℚ) (text : String) (ctx : OrchestrationContext)
    (store : IdemStore) (method path0 : String) (ecalls : ℕ) : GraphOut :=
  let trace0 := ["plan", "extract"]
  let phs := findPlaceholders path0
  let filledRes : Except OResult String :=
    if phs.isEmpty then .ok path0
    else
      let params : String → Option String := fun k =>
        if k = "account_id" then
          match ctx.account_id with
          | some a => if a = "" then none else some a
          | none => none
        else none
      let (newPath, missing) := substitutePlaceholders path0 params
      if missing.isEmpty then .ok newPath
      else .error { disambiguation := true,
                    message := some ("Не хватает параметров: " ++ String.intercalate ", " missing),
                    api := some (none, some path0), traceStages := trace0 }
  match filledRes with
  | .error res =>
      { result := res, store := store, routerCalls := [], audits := [], extractorCalls := ecalls }
  | .ok filled =>
      let path := normalizeSymbolsInPath deps.clock filled
      let trace1 := trace0 ++ ["placeholders"]
      let pol := evaluatePolicy method path none deps.policy
      if pol.1 = false then
        { result := { error := some "Политика безопасности",
                      message := some (String.intercalate ", " pol.2.2),
                      api := some (some method, some path), traceStages := trace1 },
          store := store, routerCalls := [],
          audits := [("blocked", method, path)], extractorCalls := ecalls }
      else if pol.2.1 = true ∧ ctx.confirm = false then
        let ih := generateIntentHash method path none
        { result := { requires_confirmation := true,
                      api := some (some method, some path),
                      message := some ("Требуется подтверждение (TTL≈" ++
                        toString deps.confirmTtl ++ "с). intent=" ++ ih.take 8),
                      traceStages := trace1 },
          store := store, routerCalls := [],
          audits := [("needs_confirm", method, path)], extractorCalls := ecalls }
      else if ctx.dry_run then
        { result := { api := some (some method, some path), data := some .dryRun,
                      traceStages := trace1 },
          store := store, routerCalls := [], audits := [], extractorCalls := ecalls }
      else
        if method = "POST" ∨ method = "DELETE" then
          let key := generateIntentHash method path none
          match checkAndRememberIdempotency store key deps.idemTtl now with
          | (false, store') =>
              { result := { error := some "Повтор операции заблокирован идемпотентностью",
                            api := some (some method, some path), traceStages := trace1 },
                store := store', routerCalls := [], audits := [], extractorCalls := ecalls }
          | (true, store') => executeStage deps now text ctx store' method path trace1 ecalls
        else executeStage deps now text ctx store method path trace1 ecalls

/-- `execute_graph`.  PLAN parses the `API_REQUEST:` directive; if the
planner reports disambiguation the pipeline terminates immediately.  The
structured-extraction branch (`if not (plan.method and plan.path)`) is kept
verbatim (its condition can only fire for empty tokens, which
`extract_api_request` never produces — see the C9 theorem); the number of
extractor invocations is reported in the output. -/
def executeGraph (deps : GraphDeps) (now : ℚ) (text : String)
    (ctx : OrchestrationContext) (store : IdemStore) : GraphOut :=
  match extractApiRequest text with
  | (some method, some path) =>
      if method = "" ∨ path = "" then
        let (s1, m1) := deps.extractStructured text
        let (s2, m2, ec) :=
          if s1.isNone ∧ m1.isEmpty then
            let r := deps.extractLLM text
            (r.1, r.2, 2)
          else (s1, m1, 1)
        if m2.isEmpty = false then
          { result := { disambiguation := true, message := some (disambiguationPrompt m2),
                        traceStages := ["plan", "extract_missing"] },
            store := store, routerCalls := [], audits := [], extractorCalls := ec }
        else
          match s2 with
          | some sch =>
              let mp := deps.buildFromSchema sch
              afterPlan deps now text ctx store mp.1 mp.2 ec
          | none =>
              { result := { error := some "AssertionError" },
                store := store, routerCalls := [], audits := [], extractorCalls := ec }
      else afterPlan deps now text ctx store method path 0
  | _ =>
      { result := { disambiguation := true, message := some "Требуются уточнения параметров",
                    traceStages := ["plan"] },
        store := store, routerCalls := [], audits := [], extractorCalls := 0 }

/-- Number of router calls addressed to one request (method + path). -/
def countCallsTo (calls : List (ToolRequest × CallBody)) (req : ToolRequest) : ℕ :=
  calls.countP (fun c => decide (c.1 = req))

lemma executeStage_first_call (deps : GraphDeps) (now : ℚ) (text : String)
    (ctx : OrchestrationContext) (store : IdemStore) (method path : String)
    (trace1 : List String) (ecalls : ℕ) :
    ((executeStage deps now text ctx store method path trace1 ecalls).routerCalls.head?).map
      Prod.fst = some ⟨method, path⟩ := by
  simp only [executeStage]
  repeat' split
  all_goals simp

lemma executeStage_store (deps : GraphDeps) (now : ℚ) (text : String)
    (ctx : OrchestrationContext) (store : IdemStore) (method path : String)
    (trace1 : List String) (ecalls : ℕ) :
    (executeStage deps now text ctx store method path trace1 ecalls).store = store := by
  simp only [executeStage]
  repeat' split
  all_goals rfl

lemma executeStage_write_count (deps : GraphDeps) (now : ℚ) (text : String)
    (ctx : OrchestrationContext) (store : IdemStore) (method path : String)
    (trace1 : List String) (ecalls : ℕ)
    (hm : method ≠ "GET")
    (hresp : ∀ b, (deps.router ⟨method, path⟩ b).status400 = false) :
    countCallsTo (executeStage deps now text ctx store method path trace1 ecalls).routerCalls
      ⟨method, path⟩ = 1 := by
  have hgets : ∀ p : String, (decide ((ToolRequest.mk "GET" p) = ⟨method, path⟩) : Bool) = false := by
    intro p
    simp only [decide_eq_false_iff_not]
    intro hcon
    injection hcon with h1 h2
    exact hm h1.symm
  simp only [executeStage, hresp]
  repeat' split
  all_goals
    simp_all [countCallsTo, computeMarketInsightsCalls, List.countP_append, List.countP_cons,
      List.countP_nil, hgets]

lemma executeStage_trace (deps : GraphDeps) (now : ℚ) (text : String)
    (ctx : OrchestrationContext) (store : IdemStore) (method path : String)
    (trace1 : List String) (ecalls : ℕ) :
    (executeStage deps now text ctx store method path trace1 ecalls).result.traceStages =
      trace1 ++ ["execute"] := by
  simp only [executeStage]
  repeat' split
  all_goals rfl

lemma checkAndRemember_fresh (store : IdemStore) (key : String) (ttl now : ℚ)
    (h : store key = none) :
    (checkAndRememberIdempotency store key ttl now).1 = true ∧
      (checkAndRememberIdempotency store key ttl now).2 key = some now := by
  unfold checkAndRememberIdempotency
  simp [h]

lemma checkAndRemember_stale (store : IdemStore) (key : String) (ttl now t : ℚ)
    (h : store key = some t) (hle : ¬ ttl < now - t) :
    (checkAndRememberIdempotency store key ttl now).1 = false ∧
      (checkAndRememberIdempotency store key ttl now).2 key = some t := by
  unfold checkAndRememberIdempotency
  simp [h, hle]

lemma checkAndRemember_expired (store : IdemStore) (key : String) (ttl now t : ℚ)
    (h : store key = some t) (hgt : ttl < now - t) :
    (checkAndRememberIdempotency store key ttl now).1 = true ∧
      (checkAndRememberIdempotency store key ttl now).2 key = some now := by
  unfold checkAndRememberIdempotency
  simp [h, hgt]

/-- **C9**: the claim says that without an explicit `METHOD /path` directive
the pipeline falls through from PLAN to EXTRACT, running the deterministic
extractor and, if nothing matches, the model-assisted one.  The code cannot:
`SimplePlanner.plan` reports `needs_disambiguation` whenever the directive
is absent and `execute_graph` returns at once, so the extract branch (whose
own guard `if not (plan.method and plan.path)` and comment show the intended
fall-through) is unreachable — the extractor is never invoked and the
pipeline terminates with the planner's disambiguation message. -/
theorem c9_plan_terminates_without_extractor (deps : GraphDeps) (now : ℚ) (text : String)
    (ctx : OrchestrationContext) (store : IdemStore)
    (h : strContains text "API_REQUEST:" = false) :
    (executeGraph deps now text ctx store).result.disambiguation = true ∧
      (executeGraph deps now text ctx store).result.message =
        some "Требуются уточнения параметров" ∧
      (executeGraph deps now text ctx store).extractorCalls = 0 ∧
      (executeGraph deps now text ctx store).routerCalls = [] ∧
      (executeGraph deps now text ctx store).result.traceStages = ["plan"] := by
  have hplan : extractApiRequest text = (none, none) := by
    unfold extractApiRequest
    rw [h]
    rfl
  simp [executeGraph, hplan]

/-- A concrete dependency bundle for the graph witnesses: the default
policy, a backend answering a plain success dict, extractors that find
nothing, a fixed clock. -/
def demoDeps : GraphDeps :=
  { policy := defaultPolicy,
    router := fun _ _ => {},
    extractStructured := fun _ => (none, []),
    extractLLM := fun _ => (none, []),
    buildFromSchema := fun _ => ("GET", "/v1/assets"),
    clock := { nowIso := "2025-10-01T00:00:00Z",
               weekAgoStartIso := "2025-09-24T00:00:00Z",
               normIso := fun s => s } }

/-- Witness for `c9_plan_terminates_without_extractor` at the spec's own
quote scenario text (no `API_REQUEST:` directive). -/
theorem c9_plan_terminates_without_extractor_witness :
    strContains "какая цена SBER@MISX" "API_REQUEST:" = false ∧
      (executeGraph demoDeps 0 "какая цена SBER@MISX" {} IdemStore.empty).extractorCalls = 0 ∧
      (executeGraph demoDeps 0 "какая цена SBER@MISX" {} IdemStore.empty).result.disambiguation
        = true :=
  ⟨by decide,
    (c9_plan_terminates_without_extractor demoDeps 0 "какая цена SBER@MISX" {} IdemStore.empty
      (by decide)).2.2.1,
    (c9_plan_terminates_without_extractor demoDeps 0 "какая цена SBER@MISX" {} IdemStore.empty
      (by decide)).1⟩

/-- Reduction of `afterPlan` on a placeholder-free, normalisation-stable,
policy-allowed path. -/
lemma afterPlan_no_placeholders (deps : GraphDeps) (now : ℚ) (text : String)
    (ctx : OrchestrationContext) (store : IdemStore) (method path : String) (ecalls : ℕ)
    (hph : findPlaceholders path = [])
    (hnorm : normalizeSymbolsInPath deps.clock path = path)
    (hallow : (evaluatePolicy method path none deps.policy).1 = true) :
    afterPlan deps now text ctx store method path ecalls =
      if (evaluatePolicy method path none deps.policy).2.1 = true ∧ ctx.confirm = false then
        { result := { requires_confirmation := true,
                      api := some (some method, some path),
                      message := some ("Требуется подтверждение (TTL≈" ++
                        toString deps.confirmTtl ++ "с). intent=" ++
                        (generateIntentHash method path none).take 8),
                      traceStages := ["plan", "extract", "placeholders"] },
          store := store, routerCalls := [],
          audits := [("needs_confirm", method, path)], extractorCalls := ecalls }
      else if ctx.dry_run then
        { result := { api := some (some method, some path), data := some .dryRun,
                      traceStages := ["plan", "extract", "placeholders"] },
          store := store, routerCalls := [], audits := [], extractorCalls := ecalls }
      else if method = "POST" ∨ method = "DELETE" then
        match checkAndRememberIdempotency store (generateIntentHash method path none)
            deps.idemTtl now with
        | (false, store') =>
            { result := { error := some "Повтор операции заблокирован идемпотентностью",
                          api := some (some method, some path),
                          traceStages := ["plan", "extract", "placeholders"] },
              store := store', routerCalls := [], audits := [], extractorCalls := ecalls }
        | (true, store') =>
            executeStage deps now text ctx store' method path
              ["plan", "extract", "placeholders"] ecalls
      else
        executeStage deps now text ctx store method path
          ["plan", "extract", "placeholders"] ecalls := by
  unfold afterPlan
  rw [hph]
  simp only [List.isEmpty_nil, if_true]
  rw [hnorm]
  simp only [hallow]
  norm_num

/-- **C1**: for every request whose method the policy allows and marks as
confirm-required (after path normalisation, with no unfilled placeholders),
running the pipeline with `confirm = false` in the context terminates with a
`RequiresConfirmation` result whose message carries the intent fingerprint
prefix (`generate_intent_hash(method, path)[:8]`), without any router
backend call and without touching the idempotency store; the identical call
with `confirm = true` (and `dry_run = false`, fresh idempotency key)
proceeds to the EXECUTE stage: its first router call is the planned request
and its trace ends with the `execute` stage. -/
theorem c1_confirm_gate
    (deps : GraphDeps) (t1 t2 : ℚ) (text : String) (ctx1 ctx2 : OrchestrationContext)
    (store : IdemStore) (method path : String)
    (hplan : extractApiRequest text = (some method, some path))
    (hm : ¬(method = "" ∨ path = ""))
    (hph : findPlaceholders path = [])
    (hnorm : normalizeSymbolsInPath deps.clock path = path)
    (hallow : (evaluatePolicy method path none deps.policy).1 = true)
    (hconfirm : (evaluatePolicy method path none deps.policy).2.1 = true)
    (hc1 : ctx1.confirm = false)
    (hc2 : ctx2.confirm = true) (hd2 : ctx2.dry_run = false)
    (hfresh : store (generateIntentHash method path none) = none) :
    ((executeGraph deps t1 text ctx1 store).result.requires_confirmation = true ∧
      (executeGraph deps t1 text ctx1 store).result.message =
        some ("Требуется подтверждение (TTL≈" ++ toString deps.confirmTtl ++ "с). intent=" ++
          (generateIntentHash method path none).take 8) ∧
      (executeGraph deps t1 text ctx1 store).routerCalls = [] ∧
      (executeGraph deps t1 text ctx1 store).store = store) ∧
    (((executeGraph deps t2 text ctx2 store).routerCalls.head?).map Prod.fst =
        some ⟨method, path⟩ ∧
      (executeGraph deps t2 text ctx2 store).result.traceStages =
        ["plan", "extract", "placeholders", "execute"]) := by
  constructor
  · simp only [executeGraph, hplan]
    rw [if_neg hm]
    rw [afterPlan_no_placeholders deps t1 text ctx1 store method path 0 hph hnorm hallow]
    rw [if_pos ⟨hconfirm, hc1⟩]
    exact ⟨rfl, rfl, rfl, rfl⟩
  · simp only [executeGraph, hplan]
    rw [if_neg hm]
    rw [afterPlan_no_placeholders deps t2 text ctx2 store method path 0 hph hnorm hallow]
    rw [if_neg (by rw [hc2]; simp)]
    rw [if_neg (by rw [hd2]; simp)]
    by_cases hw : method = "POST" ∨ method = "DELETE"
    · rw [if_pos hw]
      rcases hck : checkAndRememberIdempotency store (generateIntentHash method path none)
          deps.idemTtl t2 with ⟨b, store'⟩
      have hf := checkAndRemember_fresh store (generateIntentHash method path none)
        deps.idemTtl t2 hfresh
      rw [hck] at hf
      cases b with
      | false => exact absurd hf.1 (by simp)
      | true =>
          constructor
          · exact executeStage_first_call deps t2 text ctx2 store' method path _ 0
          · exact executeStage_trace deps t2 text ctx2 store' method path _ 0
    · rw [if_neg hw]
      constructor
      · exact executeStage_first_call deps t2 text ctx2 store method path _ 0
      · exact executeStage_trace deps t2 text ctx2 store method path _ 0

/-- Witness for `c1_confirm_gate`: the spec's own DELETE order-cancel
scenario under the default policy. -/
theorem c1_confirm_gate_witness :
    extractApiRequest "API_REQUEST: DELETE /v1/accounts/A1/orders/ORD123" =
      (some "DELETE", some "/v1/accounts/A1/orders/ORD123") ∧
      ((executeGraph demoDeps 0 "API_REQUEST: DELETE /v1/accounts/A1/orders/ORD123"
          { dry_run := false, confirm := false } IdemStore.empty).result.requires_confirmation =
        true ∧
        (executeGraph demoDeps 0 "API_REQUEST: DELETE /v1/accounts/A1/orders/ORD123"
          { dry_run := false, confirm := false } IdemStore.empty).routerCalls = []) ∧
      ((executeGraph demoDeps 0 "API_REQUEST: DELETE /v1/accounts/A1/orders/ORD123"
          { dry_run := false, confirm := true } IdemStore.empty).routerCalls.head?).map Prod.fst =
        some ⟨"DELETE", "/v1/accounts/A1/orders/ORD123"⟩ := by
  have h := c1_confirm_gate demoDeps 0 0 "API_REQUEST: DELETE /v1/accounts/A1/orders/ORD123"
    { dry_run := false, confirm := false } { dry_run := false, confirm := true }
    IdemStore.empty "DELETE" "/v1/accounts/A1/orders/ORD123"
    (by decide) (by decide) (by decide) (by decide) (by decide) (by decide)
    rfl rfl rfl rfl
  exact ⟨by decide, ⟨h.1.1, h.1.2.2.1⟩, h.2.1⟩

/-- **C2, counterexample.**  The claim says the idempotency fingerprint is a
hash of method, path *and body*.  The orchestrator computes the key as
`generate_intent_hash(plan.method, plan.path)` — the optional body argument
is never passed, so the body is hashed as the empty string: the claimed
fingerprint (with the body included) differs from the one the code uses. -/
theorem c2_fingerprint_counterexample :
    generateIntentHash "POST" "/v1/accounts/A1/orders" none ≠
      generateIntentHash "POST" "/v1/accounts/A1/orders" (some "side=BUY&quantity=2") := by
  decide

/-- **C2, amended**: two identical write requests (same method, path and —
since the fingerprint ignores the body — a fortiori same body) executed
through the orchestrator within the idempotency TTL make exactly one
backend call for the write; the second terminates with the
idempotency-conflict error before any router call; a third identical
request issued after the TTL has elapsed is allowed through to the backend.
The fingerprint used is `generate_intent_hash(method, path)` — a hash of
method and path with the body defaulted to the empty string (recorded at
the first call's timestamp, as the store conjuncts show). -/
theorem c2_idempotency_guard
    (deps : GraphDeps) (t1 t2 t3 : ℚ) (text : String) (ctx : OrchestrationContext)
    (store : IdemStore) (method path : String)
    (hplan : extractApiRequest text = (some method, some path))
    (hm : method = "POST" ∨ method = "DELETE")
    (hp : path ≠ "")
    (hph : findPlaceholders path = [])
    (hnorm : normalizeSymbolsInPath deps.clock path = path)
    (hallow : (evaluatePolicy method path none deps.policy).1 = true)
    (hcf : ctx.confirm = true) (hdr : ctx.dry_run = false)
    (hfresh : store (generateIntentHash method path none) = none)
    (hwithin : ¬ deps.idemTtl < t2 - t1)
    (hafter : deps.idemTtl < t3 - t1)
    (hresp : ∀ b, (deps.router ⟨method, path⟩ b).status400 = false) :
    countCallsTo (executeGraph deps t1 text ctx store).routerCalls ⟨method, path⟩ = 1 ∧
      (executeGraph deps t1 text ctx store).store (generateIntentHash method path none) =
        some t1 ∧
      ((executeGraph deps t2 text ctx (executeGraph deps t1 text ctx store).store).result.error =
          some "Повтор операции заблокирован идемпотентностью" ∧
        (executeGraph deps t2 text ctx
          (executeGraph deps t1 text ctx store).store).routerCalls = [] ∧
        (executeGraph deps t2 text ctx (executeGraph deps t1 text ctx store).store).store
          (generateIntentHash method path none) = some t1) ∧
      countCallsTo (executeGraph deps t3 text ctx
        (executeGraph deps t2 text ctx
          (executeGraph deps t1 text ctx store).store).store).routerCalls ⟨method, path⟩ = 1 := by
  have hm' : ¬(method = "" ∨ path = "") := by
    rintro (h | h)
    · rcases hm with hm | hm <;> rw [hm] at h <;> exact absurd h (by decide)
    · exact hp h
  have hmg : method ≠ "GET" := by
    rcases hm with hm | hm <;> rw [hm] <;> decide
  have hred : ∀ (t : ℚ) (st : IdemStore), executeGraph deps t text ctx st =
      match checkAndRememberIdempotency st (generateIntentHash method path none)
          deps.idemTtl t with
      | (false, store') =>
          { result := { error := some "Повтор операции заблокирован идемпотентностью",
                        api := some (some method, some path),
                        traceStages := ["plan", "extract", "placeholders"] },
            store := store', routerCalls := [], audits := [], extractorCalls := 0 }
      | (true, store') =>
          executeStage deps t text ctx store' method path
            ["plan", "extract", "placeholders"] 0 := by
    intro t st
    simp only [executeGraph, hplan]
    rw [if_neg hm']
    rw [afterPlan_no_placeholders deps t text ctx st method path 0 hph hnorm hallow]
    rw [if_neg (by rw [hcf]; simp)]
    rw [if_neg (by rw [hdr]; simp)]
    rw [if_pos hm]
  -- call 1: fresh key
  rcases hck1 : checkAndRememberIdempotency store (generateIntentHash method path none)
      deps.idemTtl t1 with ⟨b1, st1⟩
  have hf1 := checkAndRemember_fresh store (generateIntentHash method path none)
    deps.idemTtl t1 hfresh
  rw [hck1] at hf1
  cases b1 with
  | false => exact absurd hf1.1 (by simp)
  | true =>
      have e1 : executeGraph deps t1 text ctx store =
          executeStage deps t1 text ctx st1 method path ["plan", "extract", "placeholders"] 0 := by
        rw [hred t1 store, hck1]
      have hstore1 : (executeGraph deps t1 text ctx store).store = st1 := by
        rw [e1]; exact executeStage_store deps t1 text ctx st1 method path _ 0
      have hkey1 : st1 (generateIntentHash method path none) = some t1 := hf1.2
      refine ⟨?_, ?_, ?_, ?_⟩
      · rw [e1]
        exact executeStage_write_count deps t1 text ctx st1 method path _ 0 hmg hresp
      · rw [hstore1]; exact hkey1
      · -- call 2: key still present
        rw [hstore1]
        rcases hck2 : checkAndRememberIdempotency st1 (generateIntentHash method path none)
            deps.idemTtl t2 with ⟨b2, st2⟩
        have hf2 := checkAndRemember_stale st1 (generateIntentHash method path none)
          deps.idemTtl t2 t1 hkey1 hwithin
        rw [hck2] at hf2
        cases b2 with
        | true => exact absurd hf2.1 (by simp)
        | false =>
            have e2 : executeGraph deps t2 text ctx st1 =
                { result := { error := some "Повтор операции заблокирован идемпотентностью",
                              api := some (some method, some path),
                              traceStages := ["plan", "extract", "placeholders"] },
                  store := st2, routerCalls := [], audits := [], extractorCalls := 0 } := by
              rw [hred t2 st1, hck2]
            rw [e2]
            exact ⟨rfl, rfl, hf2.2⟩
      · -- call 3: key expired
        rw [hstore1]
        rcases hck2 : checkAndRememberIdempotency st1 (generateIntentHash method path none)
            deps.idemTtl t2 with ⟨b2, st2⟩
        have hf2 := checkAndRemember_stale st1 (generateIntentHash method path none)
          deps.idemTtl t2 t1 hkey1 hwithin
        rw [hck2] at hf2
        cases b2 with
        | true => exact absurd hf2.1 (by simp)
        | false =>
            have e2 : (executeGraph deps t2 text ctx st1).store = st2 := by
              rw [hred t2 st1, hck2]
            rw [e2]
            rcases hck3 : checkAndRememberIdempotency st2 (generateIntentHash method path none)
                deps.idemTtl t3 with ⟨b3, st3⟩
            have hf3 := checkAndRemember_expired st2 (generateIntentHash method path none)
              deps.idemTtl t3 t1 hf2.2 hafter
            rw [hck3] at hf3
            cases b3 with
            | false => exact absurd hf3.1 (by simp)
            | true =>
                have e3 : executeGraph deps t3 text ctx st2 =
                    executeStage deps t3 text ctx st3 method path
                      ["plan", "extract", "placeholders"] 0 := by
                  rw [hred t3 st2, hck3]
                rw [e3]
                exact executeStage_write_count deps t3 text ctx st3 method path _ 0 hmg hresp

/-- Witness for `c2_idempotency_guard`: three identical DELETE order-cancel
requests at t=0, t=30 and t=100 with the default 60-second TTL. -/
theorem c2_idempotency_guard_witness :
    countCallsTo (executeGraph demoDeps 0 "API_REQUEST: DELETE /v1/accounts/A1/orders/ORD123"
        { dry_run := false, confirm := true } IdemStore.empty).routerCalls
        ⟨"DELETE", "/v1/accounts/A1/orders/ORD123"⟩ = 1 ∧
      (executeGraph demoDeps 30 "API_REQUEST: DELETE /v1/accounts/A1/orders/ORD123"
        { dry_run := false, confirm := true }
        (executeGraph demoDeps 0 "API_REQUEST: DELETE /v1/accounts/A1/orders/ORD123"
          { dry_run := false, confirm := true } IdemStore.empty).store).routerCalls = [] ∧
      countCallsTo (executeGraph demoDeps 100
        "API_REQUEST: DELETE /v1/accounts/A1/orders/ORD123"
        { dry_run := false, confirm := true }
        (executeGraph demoDeps 30 "API_REQUEST: DELETE /v1/accounts/A1/orders/ORD123"
          { dry_run := false, confirm := true }
          (executeGraph demoDeps 0 "API_REQUEST: DELETE /v1/accounts/A1/orders/ORD123"
            { dry_run := false, confirm := true } IdemStore.empty).store).store).routerCalls
        ⟨"DELETE", "/v1/accounts/A1/orders/ORD123"⟩ = 1 := by
  have h := c2_idempotency_guard demoDeps 0 30 100
    "API_REQUEST: DELETE /v1/accounts/A1/orders/ORD123"
    { dry_run := false, confirm := true } IdemStore.empty
    "DELETE" "/v1/accounts/A1/orders/ORD123"
    (by decide) (Or.inr rfl) (by decide) (by decide) rfl (by decide)
    rfl rfl rfl (by norm_num [demoDeps]) (by norm_num [demoDeps]) (fun _ => rfl)
  exact ⟨h.1, h.2.2.1.2.1, h.2.2.2⟩

/-! ### Deterministic slot extractor (`extract_structured`, `extractor.py`)

`extract_structured` scores registry intents against the lowered question,
then builds the winning pydantic schema from inferred slots.  The regular
expressions it uses (`\bORD[A-Z0-9-]*\b`, `\b(?:ACC|USR|FIN)-\d{3}-[A-Z]\b`,
`\b[A-Z]\d{5,}\b`, `\b\d{3,}\b`, `\b[A-Za-z0-9]{2,12}(?:@[A-Za-z]{2,8})?\b`,
`\b[A-Z0-9]{2,8}(?:@[A-Z]{2,6})?\b`) are embedded as leftmost-match scanners
with the greedy-run/backtracking behaviour of `re.search`/`re.findall`.
`\b` is a word boundary; word characters are modelled as ASCII alphanumerics,
`_`, and the Cyrillic block (the alphabets occurring in this code base).
`SymbolResolver` runs strategies `("aliases", "pattern")`; `configs/aliases.yaml`
does not exist in the repository, so the `aliases` strategy returns `None`
and only `pattern` remains.  Clock-dependent helpers (`parse_date_range`,
`normalize_iso8601`) are passed in as function parameters. -/

/-- Python `\w` (regex word character) for the alphabets in use: ASCII
alphanumerics, underscore, and the Cyrillic block U+0400–U+04FF. -/
def isWordChar (c : Char) : Bool :=
  c.isAlphanum || c = '_' || (0x400 ≤ c.toNat && c.toNat ≤ 0x4FF)

/-- Whether the next character (if any) is a word character; the end of the
string counts as a non-word position. -/
def headIsWord : List Char → Bool
  | [] => false
  | c :: _ => isWordChar c

/-- `\b` between a last-matched character `l` and the remaining input:
exactly one side is a word character. -/
def wordBoundary (l : Char) (tail : List Char) : Bool :=
  isWordChar l != headIsWord tail

/-- Python `s.startswith(p)`. -/
def strStartsWith (s p : String) : Bool := p.toList.isPrefixOf s.toList

/-- Character class `[A-Z0-9-]` of the order-id pattern. -/
def isOrdCls (c : Char) : Bool := isUpperAZ c || c.isDigit || c = '-'

/-- Backtracking of the greedy `[A-Z0-9-]*` run against the trailing `\b`:
shrink the run (given reversed) from the right until the boundary holds.
Returns the run part actually consumed. -/
def shrinkOrd : List Char → List Char → Option (List Char)
  | [], tail => if wordBoundary 'D' tail then some [] else none
  | a :: t, tail =>
      if wordBoundary a tail then some ((a :: t).reverse)
      else shrinkOrd t (a :: tail)

/-- Leftmost match of `\bORD[A-Z0-9-]*\b` (`prevW` = previous character is a
word character). -/
def inferOrderIdGo : Bool → List Char → Option (List Char)
  | _, [] => none
  | prevW, c :: rest =>
      match (if prevW then none
             else if ['O', 'R', 'D'].isPrefixOf (c :: rest) then
               let r := (c :: rest).drop 3
               let run := r.takeWhile isOrdCls
               (shrinkOrd run.reverse (r.drop run.length)).map
                 (fun used => ['O', 'R', 'D'] ++ used)
             else none) with
      | some m => some m
      | none => inferOrderIdGo (isWordChar c) rest

/-- `_infer_order_id`: search `\bORD[A-Z0-9-]*\b` in `text.upper()`. -/
def inferOrderId (text : String) : Option String :=
  (inferOrderIdGo false (strToUpper text).toList).map String.mk

/-- One alternative of `(?:ACC|USR|FIN)-\d{3}-[A-Z]\b` at the current
position (the prefix `p` is the three-letter alternative). -/
def accPrefixAt (p : List Char) (cs : List Char) : Option (List Char) :=
  if p.isPrefixOf cs then
    match cs.drop 3 with
    | '-' :: d1 :: d2 :: d3 :: '-' :: l :: rest =>
        if d1.isDigit && d2.isDigit && d3.isDigit && isUpperAZ l
            && !headIsWord rest then
          some (p ++ ['-', d1, d2, d3, '-', l])
        else none
    | _ => none
  else none

/-- Leftmost match of `\b(?:ACC|USR|FIN)-\d{3}-[A-Z]\b`. -/
def accPat1Go : Bool → List Char → Option (List Char)
  | _, [] => none
  | prevW, c :: rest =>
      match (if prevW then none
             else match accPrefixAt ['A', 'C', 'C'] (c :: rest) with
                  | some m => some m
                  | none =>
                      match accPrefixAt ['U', 'S', 'R'] (c :: rest) with
                      | some m => some m
                      | none => accPrefixAt ['F', 'I', 'N'] (c :: rest)) with
      | some m => some m
      | none => accPat1Go (isWordChar c) rest

/-- Leftmost match of `\b[A-Z]\d{5,}\b` (the greedy digit run cannot be
shrunk against the trailing `\b` since digits are word characters, so only
the maximal run with a non-word successor matches). -/
def accPat2Go : Bool → List Char → Option (List Char)
  | _, [] => none
  | prevW, c :: rest =>
      match (if !prevW && isUpperAZ c then
               let run := rest.takeWhile Char.isDigit
               if 5 ≤ run.length && !headIsWord (rest.drop run.length) then
                 some (c :: run)
               else none
             else none) with
      | some m => some m
      | none => accPat2Go (isWordChar c) rest

/-- Leftmost match of `\b\d{3,}\b`. -/
def accPat3Go : Bool → List Char → Option (List Char)
  | _, [] => none
  | prevW, c :: rest =>
      match (if !prevW && c.isDigit then
               let run := rest.takeWhile Char.isDigit
               if 2 ≤ run.length && !headIsWord (rest.drop run.length) then
                 some (c :: run)
               else none
             else none) with
      | some m => some m
      | none => accPat3Go (isWordChar c) rest

/-- `_infer_account_id`: `\b(?:ACC|USR|FIN)-\d{3}-[A-Z]\b` on `text.upper()`,
then `\b[A-Z]\d{5,}\b` on `text.upper()`, then `\b\d{3,}\b` on `text`. -/
def inferAccountId (text : String) : Option String :=
  (match accPat1Go false (strToUpper text).toList with
   | some m => some m
   | none =>
       match accPat2Go false (strToUpper text).toList with
       | some m => some m
       | none => accPat3Go false text.toList).map String.mk

/-- `CLASS{lo,hi}(?:@LETTER{mlo,mhi})?\b` at the current position: the
greedy class run must fit within `hi` (a longer maximal run leaves a word
character after every shorter prefix, so every backtrack of the bounded
repetition fails the trailing `\b`); the optional `@market` group matches
when the maximal letter run after `@` fits within its bounds and is
followed by a non-word position, and is otherwise skipped (the boundary
before `@` always holds). -/
def tokAt (cls letterCls : Char → Bool) (lo hi mlo mhi : ℕ) (cs : List Char) :
    Option (List Char) :=
  let run := cs.takeWhile cls
  if lo ≤ run.length && run.length ≤ hi then
    match cs.drop run.length with
    | '@' :: a2 =>
        let mrun := a2.takeWhile letterCls
        if mlo ≤ mrun.length && mrun.length ≤ mhi
            && !headIsWord (a2.drop mrun.length) then
          some (run ++ '@' :: mrun)
        else some run
    | a => if headIsWord a then none else some run
  else none

/-- Leftmost-match scanner for the ticker-shaped patterns. -/
def tokGo (cls letterCls : Char → Bool) (lo hi mlo mhi : ℕ) :
    Bool → List Char → Option (List Char)
  | _, [] => none
  | prevW, c :: rest =>
      match (if prevW then none else tokAt cls letterCls lo hi mlo mhi (c :: rest)) with
      | some m => some m
      | none => tokGo cls letterCls lo hi mlo mhi (isWordChar c) rest

/-- Full match of `ORD\d+` (the order-id filter of `_from_pattern`). -/
def isOrdNum : List Char → Bool
  | 'O' :: 'R' :: 'D' :: ds => !ds.isEmpty && ds.all Char.isDigit
  | _ => false

/-- `SymbolResolver._from_pattern`: search
`\b([A-Za-z0-9]{2,12}(?:@[A-Za-z]{2,8})?)\b` in the original-case text, then
reject the stop word `ISIN`, full matches of `ORD\d+` on the uppercased
token, full matches of `\d{2,4}`, and tokens with no Latin letter. -/
def fromPattern (text : String) : Option String :=
  match tokGo Char.isAlphanum Char.isAlpha 2 12 2 8 false text.toList with
  | none => none
  | some tok =>
      if strToUpper (String.mk tok) = "ISIN" then none
      else if isOrdNum (strToUpper (String.mk tok)).toList then none
      else if tok.all Char.isDigit && 2 ≤ tok.length && tok.length ≤ 4 then none
      else if tok.any Char.isAlpha then some (String.mk tok)
      else none

/-- `SymbolResolver.resolve(question, ctx, allow_llm=False)` context slice:
the extractor passes its `context` dict through. -/
structure ExtractCtx where
  symbol : Option String := none
  account_id : Option String := none
  order_id : Option String := none
  timeframe : Option String := none
  start : Option String := none
  /-- the `"end"` context key (`end` is a Lean keyword) -/
  end_ : Option String := none
  /-- the `"limit"` context key; `none` models absence of the key -/
  limit : Option ℤ := none
  deriving Repr, DecidableEq

/-- `SymbolResolver.resolve` with `allow_llm=False`: context symbol override
first (when a non-blank string), then strategies `("aliases", "pattern")`;
`configs/aliases.yaml` is absent from the repository so `_from_alias`
returns `None`, leaving the `pattern` strategy. -/
def symResolve (question : String) (ctx : ExtractCtx) : Option String :=
  match ctx.symbol with
  | some s =>
      if pyStrip s = "" then (fromPattern question).map inferMarketSymbol
      else some (inferMarketSymbol s)
  | none => (fromPattern question).map inferMarketSymbol

/-- `_infer_symbol_from_text`: first `findall` match of
`\b[A-Z0-9]{2,8}(?:@[A-Z]{2,6})?\b` in `text.upper()` (the alias-keyword
fallback reads the absent `configs/aliases.yaml` and yields nothing). -/
def inferSymbolFromText (text : String) : Option String :=
  match tokGo (fun c => isUpperAZ c || c.isDigit) isUpperAZ 2 8 2 6 false
      (strToUpper text).toList with
  | some tok => some (inferMarketSymbol (String.mk tok))
  | none => none

/-- `any(k in s for k in ks)`. -/
def anyIn (s : String) (ks : List String) : Bool := ks.any (fun k => strContains s k)

/-- `normalize_timeframe` (`normalize.py`): first matching cue list wins,
falling back to the daily timeframe. -/
def normalizeTimeframe (natural : String) : String :=
  let s := strToLower (pyStrip natural)
  if anyIn s ["1m", "m1", "минутная", "минутные", "1 мин", "1‑мин"] then "TIME_FRAME_M1"
  else if anyIn s ["5m", "m5", "5 мин", "5‑мин"] then "TIME_FRAME_M5"
  else if anyIn s ["15m", "m15", "15 мин"] then "TIME_FRAME_M15"
  else if anyIn s ["30m", "m30", "30 мин"] then "TIME_FRAME_M30"
  else if anyIn s ["1h", "h1", "час", "часовой"] then "TIME_FRAME_H1"
  else if anyIn s ["4h", "h4", "4 часа", "4‑час"] then "TIME_FRAME_H4"
  else if anyIn s ["d", "1d", "day", "днев", "дни"] then "TIME_FRAME_D"
  else if anyIn s ["w", "1w", "нед", "недел"] then "TIME_FRAME_W"
  else if anyIn s ["mn", "mon", "месяц", "месячн"] then "TIME_FRAME_MN"
  else "TIME_FRAME_D"

/-- The score of one registry item in `match_intent`: 2 points per synonym
contained in the lowered question, 1 per keyword, plus the symbol, account,
DELETE-cue, order-id, schedule and params boosts (`"ГО" in q` is embedded
literally; `q` is lowercased so it never fires). -/
def intentScore (question q : String) (ctx : ExtractCtx) (it : EndpointDef) : ℕ :=
  2 * ((it.synonyms.map strToLower).filter
        (fun s => s != "" && strContains q s)).length
  + ((it.keywords.map strToLower).filter
        (fun k => k != "" && strContains q k)).length
  + (if (strContains it.path "{symbol}" || strContains it.path "/instruments/"
        || strContains it.path "/assets/")
        && (symResolve question ctx).isSome then 1 else 0)
  + (if (strContains it.path "{account_id}" || strContains it.path "/accounts/")
        && ((inferAccountId question).isSome || ctx.account_id.isSome) then 1 else 0)
  + (if (strStartsWith (strToLower (pyStrip question)) "delete" || strContains q "отмен")
        && strToUpper it.method == "DELETE" then 2 else 0)
  + (if strContains it.path "/orders/" && strContains it.path "{order_id}"
        && (inferOrderId question).isSome then 2 else 0)
  + (if strContains it.path "/schedule"
        && (strContains q "расписан" || strContains q "клиринг") then 1 else 0)
  + (if strContains it.path "/params"
        && (strContains q "параметр" || strContains q "шаг цены" || strContains q "лот"
            || strContains q "ставка риска" || strContains q "ГО") then 1 else 0)

/-- `match_intent`'s fold: strictly greater scores win, first item wins
ties, and the initial best score is 0 (so a winner needs a positive score). -/
def matchIntentGo (question q : String) (ctx : ExtractCtx) :
    List EndpointDef → Option String → ℕ → Option String
  | [], best, _ => best
  | it :: rest, best, bestScore =>
      let s := intentScore question q ctx it
      if bestScore < s then matchIntentGo question q ctx rest (some it.schema) s
      else matchIntentGo question q ctx rest best bestScore

def matchIntent (items : List EndpointDef) (question q : String) (ctx : ExtractCtx) :
    Option String :=
  matchIntentGo question q ctx items none 0

/-- `EndpointRegistry.required_slots(schema_name)`: the required slots of
the registry item with that schema (empty when unknown; later duplicates
shadow earlier ones as in the Python dict). -/
def registryRequiredSlots (items : List EndpointDef) (name : String) : List String :=
  match items.reverse.find? (fun ed => ed.schema == name) with
  | some ed => requiredSlots ed
  | none => []

/-- The pydantic model fields of each request schema (`schemas/requests.py`),
in declaration order, with their required flags. -/
def schemaFields (name : String) : Option (List (String × Bool)) :=
  if name == "QuoteRequest" then some [("symbol", true)]
  else if name == "OrderbookRequest" then some [("symbol", true), ("depth", false)]
  else if name == "BarsRequest" then
    some [("symbol", true), ("timeframe", true), ("start", false), ("end", false)]
  else if name == "TradesLatestRequest" then some [("symbol", true)]
  else if name == "AccountRequest" then some [("account_id", true)]
  else if name == "OrdersListRequest" then some [("account_id", true)]
  else if name == "OrderGetRequest" then
    some [("account_id", true), ("order_id", true)]
  else if name == "TradesRequest" then
    some [("account_id", true), ("start", false), ("end", false)]
  else if name == "TransactionsRequest" then
    some [("account_id", true), ("start", false), ("end", false), ("limit", false)]
  else if name == "OrderCancelRequest" then
    some [("account_id", true), ("order_id", true)]
  else if name == "SessionDetailsRequest" then some []
  else if name == "AssetsListRequest" then some []
  else if name == "ExchangesListRequest" then some []
  else if name == "AssetInfoRequest" then some [("symbol", true)]
  else if name == "AssetParamsRequest" then
    some [("symbol", true), ("account_id", false)]
  else if name == "AssetScheduleRequest" then some [("symbol", true)]
  else if name == "AssetOptionsRequest" then some [("symbol", true)]
  else none

/-- The constructed pydantic instance: the schema name plus the fields the
extractor can set (fields absent from the model stay `none`; `depth` keeps
its pydantic default and is not tracked). -/
structure ExtractedReq where
  schema : String
  symbol : Option String := none
  account_id : Option String := none
  order_id : Option String := none
  timeframe : Option String := none
  start : Option String := none
  /-- the `end` model field (`end` is a Lean keyword) -/
  end_ : Option String := none
  limit : Option ℤ := none
  deriving Repr, DecidableEq

/-- The constructor-kwargs entry `extract_structured` computes per model
field (extractor.py lines 153-223): symbol from the resolver with the
text-pattern fallback, context-then-inferred account/order ids with literal
`"{account_id}"`/`"{order_id}"` placeholders when the registry requires the
slot, a timeframe defaulted through the language cues, and
start/end from the context (normalized) with the `parse_date_range`
fallback for the date-ranged schemas.  `none` models absence of the key
from the kwargs; fields other than these stay at their model defaults. -/
def extractKwarg (dateRange : String → Option (String × String))
    (normIso : String → String) (items : List EndpointDef)
    (question : String) (ctx : ExtractCtx) (schemaName : String)
    (name : String) : Option String :=
  let q := strToLower question
  let sym := (symResolve question ctx).orElse
    (fun _ => inferSymbolFromText question)
  let acc := ctx.account_id.orElse (fun _ => inferAccountId question)
  let oid := ctx.order_id.orElse (fun _ => inferOrderId question)
  let timeframe :=
    match ctx.timeframe with
    | some t => normalizeTimeframe t
    | none =>
        if anyIn q ["днев", "day", "день"] then normalizeTimeframe "D"
        else if anyIn q ["час", "h1", "часовой"] then normalizeTimeframe "H1"
        else normalizeTimeframe "D"
  let st0 := ctx.start.map normIso
  let en0 := ctx.end_.map normIso
  let rng :=
    if (st0.isNone || en0.isNone)
        && (schemaName == "BarsRequest" || schemaName == "TradesRequest"
            || schemaName == "TransactionsRequest") then
      dateRange question
    else none
  let st := match rng with
    | some (s, _) => some (st0.getD s)
    | none => st0
  let en := match rng with
    | some (_, e) => some (en0.getD e)
    | none => en0
  let required := registryRequiredSlots items schemaName
  if name == "symbol" then sym
  else if name == "account_id" then
    (if required.contains "account_id" then some (acc.getD "{account_id}")
     else acc)
  else if name == "order_id" then
    (if required.contains "order_id" then some (oid.getD "{order_id}")
     else oid)
  else if name == "timeframe" then some timeframe
  else if name == "start" then st
  else if name == "end" then en
  else none

/-- `name in kwargs` for a model field: `limit` is in the kwargs exactly
when the context has the key, every other field exactly when its kwargs
entry was set. -/
def extractPresent (dateRange : String → Option (String × String))
    (normIso : String → String) (items : List EndpointDef)
    (question : String) (ctx : ExtractCtx) (schemaName : String)
    (name : String) : Bool :=
  if name == "limit" then ctx.limit.isSome
  else (extractKwarg dateRange normIso items question ctx schemaName name).isSome

/-- `extract_structured(question, context)`.  `dateRange` stands for
`parse_date_range` and `normIso` for `normalize_iso8601` (both depend on the
wall clock).  Context values are assumed non-empty where Python tests
truthiness.  Construction succeeds exactly when every required model field
is in the kwargs and a present `limit` respects its `1..1000` bounds.  On
failure, *every* model field absent from the kwargs is reported missing,
optional ones included, in model-field order: the repository uses pydantic
v2, where `FieldInfo.is_required` is a method, so the
`getattr(info, "is_required", False)` read at extractor.py line 231 yields
a truthy bound method for every field. -/
def extractStructured (dateRange : String → Option (String × String))
    (normIso : String → String) (items : List EndpointDef)
    (question : String) (ctx : ExtractCtx) :
    Option ExtractedReq × List String :=
  match matchIntent items question (strToLower question) ctx with
  | none => (none, [])
  | some schemaName =>
      match schemaFields schemaName with
      | none => (none, [])
      | some fields =>
          let kwarg := extractKwarg dateRange normIso items question ctx schemaName
          let present := extractPresent dateRange normIso items question ctx schemaName
          let limitOk := match ctx.limit with
            | some n =>
                !((fields.map Prod.fst).contains "limit")
                  || (decide (1 ≤ n) && decide (n ≤ 1000))
            | none => true
          if fields.all (fun f => !f.2 || present f.1) && limitOk then
            (some { schema := schemaName,
                    symbol := if (fields.map Prod.fst).contains "symbol" then
                        kwarg "symbol" else none,
                    account_id := if (fields.map Prod.fst).contains "account_id" then
                        kwarg "account_id" else none,
                    order_id := if (fields.map Prod.fst).contains "order_id" then
                        kwarg "order_id" else none,
                    timeframe := if (fields.map Prod.fst).contains "timeframe" then
                        kwarg "timeframe" else none,
                    start := if (fields.map Prod.fst).contains "start" then
                        kwarg "start" else none,
                    end_ := if (fields.map Prod.fst).contains "end" then
                        kwarg "end" else none,
                    limit := if (fields.map Prod.fst).contains "limit" then
                        ctx.limit else none },
             [])
          else
            (none, (fields.filter (fun f => !present f.1)).map Prod.fst)

/-- **C10, counterexample.**  The claim's own scenario: a request for
account orders ("покажи мои ордера") with no account id in the text or
context.  `extract_structured` does *not* return `(none, ["account_id"])`;
it fills the required `account_id` slot with the literal placeholder
`"{account_id}"` (extractor.py line 204) and returns a constructed
`OrdersListRequest` with no missing fields. -/
theorem c10_missing_account_counterexample :
    extractStructured (fun _ => none) id modelledEndpoints "покажи мои ордера" {} =
      (some { schema := "OrdersListRequest", account_id := some "{account_id}" }, []) ∧
      extractStructured (fun _ => none) id modelledEndpoints "покажи мои ордера" {} ≠
        (none, ["account_id"]) := by
  decide

/-- **C10, amended.**  Required `account_id`/`order_id` slots are never
reported missing: when they cannot be inferred the extractor deliberately
stores the literal placeholder strings `"{account_id}"`/`"{order_id}"` and
returns a constructed instance with no missing fields — in particular a
request for account orders with no account id yields an `OrdersListRequest`
carrying `account_id = "{account_id}"`, not `(none, ["account_id"])`.  When
the winning intent's model requires a symbol and none can be resolved from
text or context, construction fails and `extract_structured` returns
`(none, missing)` — but `missing` is *every* model field absent from the
constructor kwargs, optional fields included, not just the unfilled
required ones: the repository runs pydantic v2, where
`FieldInfo.is_required` is a method, so the truthy
`getattr(info, "is_required", False)` at extractor.py line 231 never
filters anything out (e.g. `(None, ["symbol", "depth"])` for an orderbook
question with no symbol). -/
theorem c10_extractor_missing (dateRange : String → Option (String × String))
    (normIso : String → String) (q1 q2 : String) (ctx1 ctx2 : ExtractCtx)
    (h1 : matchIntent modelledEndpoints q1 (strToLower q1) ctx1 = some "OrdersListRequest")
    (hacc : ctx1.account_id = none) (hinf : inferAccountId q1 = none)
    (s : String) (fields : List (String × Bool))
    (h2 : matchIntent modelledEndpoints q2 (strToLower q2) ctx2 = some s)
    (hflds : schemaFields s = some fields)
    (hreqsym : ("symbol", true) ∈ fields)
    (hres : symResolve q2 ctx2 = none) (htxt : inferSymbolFromText q2 = none) :
    extractStructured dateRange normIso modelledEndpoints q1 ctx1 =
      (some { schema := "OrdersListRequest", account_id := some "{account_id}" }, []) ∧
      extractStructured dateRange normIso modelledEndpoints q2 ctx2 =
        (none, (fields.filter (fun f =>
            !extractPresent dateRange normIso modelledEndpoints q2 ctx2 s f.1)).map
          Prod.fst) ∧
      "symbol" ∈ (fields.filter (fun f =>
            !extractPresent dateRange normIso modelledEndpoints q2 ctx2 s f.1)).map
          Prod.fst := by
  have hreq : registryRequiredSlots modelledEndpoints "OrdersListRequest" = ["account_id"] := by
    decide
  have hsymk : extractKwarg dateRange normIso modelledEndpoints q2 ctx2 s "symbol" = none := by
    simp [extractKwarg, hres, htxt, Option.orElse]
  have hpre : extractPresent dateRange normIso modelledEndpoints q2 ctx2 s "symbol" = false := by
    simp [extractPresent, hsymk]
  refine ⟨?_, ?_, ?_⟩
  · rcases hl : ctx1.limit with _ | n
    · simp only [extractStructured, h1]
      simp [hacc, hinf, hl, hreq, Option.orElse, schemaFields, extractKwarg, extractPresent]
    · simp only [extractStructured, h1]
      simp [hacc, hinf, hl, hreq, Option.orElse, schemaFields, extractKwarg, extractPresent]
  · have hall : fields.all (fun f =>
        !f.2 || extractPresent dateRange normIso modelledEndpoints q2 ctx2 s f.1) = false := by
      rw [List.all_eq_false]
      exact ⟨("symbol", true), hreqsym, by simp [hpre]⟩
    simp only [extractStructured, h2, hflds]
    simp [hall]
  · simp only [List.mem_map]
    exact ⟨("symbol", true), List.mem_filter.mpr ⟨hreqsym, by simp [hpre]⟩, rfl⟩

/-- Witness for `c10_extractor_missing`: the claim's account-orders scenario
("покажи мои ордера", empty context) and an orderbook question with no
resolvable symbol ("покажи стакан", empty context), whose missing list
names the optional `depth` field along with the required `symbol`. -/
theorem c10_extractor_missing_witness :
    matchIntent modelledEndpoints "покажи стакан" (strToLower "покажи стакан") {} =
      some "OrderbookRequest" ∧
      ("symbol", true) ∈ [("symbol", true), ("depth", false)] ∧
      extractStructured (fun _ => none) id modelledEndpoints "покажи мои ордера" {} =
        (some { schema := "OrdersListRequest", account_id := some "{account_id}" }, []) ∧
      extractStructured (fun _ => none) id modelledEndpoints "покажи стакан" {} =
        (none, ["symbol", "depth"]) := by
  have h := c10_extractor_missing (fun _ => none) id "покажи мои ордера" "покажи стакан" {} {}
    (by decide) rfl (by decide) "OrderbookRequest" [("symbol", true), ("depth", false)]
    (by decide) (by decide) (by decide) (by decide) (by decide)
  refine ⟨by decide, by decide, h.1, ?_⟩
  rw [h.2.1]
  decide

end FinamCore
